import Mathlib

/-!
Verification of the MX29F1615 programmer transport protocol.

Shallow embedding of the protocol-relevant C functions of the host tool
(`sw/mxprog.c`) and the device firmware (`fw/prom_access.c`, `fw/uart.c`).
Machine integers are modelled as `Nat` with explicit reduction modulo
2^32 where 32-bit overflow matters; bytes are `Nat` values below 256.
The serial link is modelled as the list of bytes actually delivered
(a severed link simply ends the list, which is exactly what the per-byte
timeout loops of `receive_ll` / `getchar_wait` observe).
-/

namespace Mx

/-! ## CRC-32 engine (`sw/mxprog.c` lines 180-272, identical table on both
peers; the firmware's `crc32.c` is linked from a library directory and is
declared in `fw/crc32.h` with the same contract — spec §4.2 requires it to
be bit-identical on both peers, so a single definition serves both sides). -/

/-- The 256-entry table of the normal form of polynomial 0x04C11DB7
(`crc32_table` in `sw/mxprog.c`). -/
def crc32_table : Array Nat := #[
    0x00000000,0x04c11db7,0x09823b6e,0x0d4326d9,0x130476dc,0x17c56b6b,0x1a864db2,0x1e475005,
    0x2608edb8,0x22c9f00f,0x2f8ad6d6,0x2b4bcb61,0x350c9b64,0x31cd86d3,0x3c8ea00a,0x384fbdbd,
    0x4c11db70,0x48d0c6c7,0x4593e01e,0x4152fda9,0x5f15adac,0x5bd4b01b,0x569796c2,0x52568b75,
    0x6a1936c8,0x6ed82b7f,0x639b0da6,0x675a1011,0x791d4014,0x7ddc5da3,0x709f7b7a,0x745e66cd,
    0x9823b6e0,0x9ce2ab57,0x91a18d8e,0x95609039,0x8b27c03c,0x8fe6dd8b,0x82a5fb52,0x8664e6e5,
    0xbe2b5b58,0xbaea46ef,0xb7a96036,0xb3687d81,0xad2f2d84,0xa9ee3033,0xa4ad16ea,0xa06c0b5d,
    0xd4326d90,0xd0f37027,0xddb056fe,0xd9714b49,0xc7361b4c,0xc3f706fb,0xceb42022,0xca753d95,
    0xf23a8028,0xf6fb9d9f,0xfbb8bb46,0xff79a6f1,0xe13ef6f4,0xe5ffeb43,0xe8bccd9a,0xec7dd02d,
    0x34867077,0x30476dc0,0x3d044b19,0x39c556ae,0x278206ab,0x23431b1c,0x2e003dc5,0x2ac12072,
    0x128e9dcf,0x164f8078,0x1b0ca6a1,0x1fcdbb16,0x018aeb13,0x054bf6a4,0x0808d07d,0x0cc9cdca,
    0x7897ab07,0x7c56b6b0,0x71159069,0x75d48dde,0x6b93dddb,0x6f52c06c,0x6211e6b5,0x66d0fb02,
    0x5e9f46bf,0x5a5e5b08,0x571d7dd1,0x53dc6066,0x4d9b3063,0x495a2dd4,0x44190b0d,0x40d816ba,
    0xaca5c697,0xa864db20,0xa527fdf9,0xa1e6e04e,0xbfa1b04b,0xbb60adfc,0xb6238b25,0xb2e29692,
    0x8aad2b2f,0x8e6c3698,0x832f1041,0x87ee0df6,0x99a95df3,0x9d684044,0x902b669d,0x94ea7b2a,
    0xe0b41de7,0xe4750050,0xe9362689,0xedf73b3e,0xf3b06b3b,0xf771768c,0xfa325055,0xfef34de2,
    0xc6bcf05f,0xc27dede8,0xcf3ecb31,0xcbffd686,0xd5b88683,0xd1799b34,0xdc3abded,0xd8fba05a,
    0x690ce0ee,0x6dcdfd59,0x608edb80,0x644fc637,0x7a089632,0x7ec98b85,0x738aad5c,0x774bb0eb,
    0x4f040d56,0x4bc510e1,0x46863638,0x42472b8f,0x5c007b8a,0x58c1663d,0x558240e4,0x51435d53,
    0x251d3b9e,0x21dc2629,0x2c9f00f0,0x285e1d47,0x36194d42,0x32d850f5,0x3f9b762c,0x3b5a6b9b,
    0x0315d626,0x07d4cb91,0x0a97ed48,0x0e56f0ff,0x1011a0fa,0x14d0bd4d,0x19939b94,0x1d528623,
    0xf12f560e,0xf5ee4bb9,0xf8ad6d60,0xfc6c70d7,0xe22b20d2,0xe6ea3d65,0xeba91bbc,0xef68060b,
    0xd727bbb6,0xd3e6a601,0xdea580d8,0xda649d6f,0xc423cd6a,0xc0e2d0dd,0xcda1f604,0xc960ebb3,
    0xbd3e8d7e,0xb9ff90c9,0xb4bcb610,0xb07daba7,0xae3afba2,0xaafbe615,0xa7b8c0cc,0xa379dd7b,
    0x9b3660c6,0x9ff77d71,0x92b45ba8,0x9675461f,0x8832161a,0x8cf30bad,0x81b02d74,0x857130c3,
    0x5d8a9099,0x594b8d2e,0x5408abf7,0x50c9b640,0x4e8ee645,0x4a4ffbf2,0x470cdd2b,0x43cdc09c,
    0x7b827d21,0x7f436096,0x7200464f,0x76c15bf8,0x68860bfd,0x6c47164a,0x61043093,0x65c52d24,
    0x119b4be9,0x155a565e,0x18197087,0x1cd86d30,0x029f3d35,0x065e2082,0x0b1d065b,0x0fdc1bec,
    0x3793a651,0x3352bbe6,0x3e119d3f,0x3ad08088,0x2497d08d,0x2056cd3a,0x2d15ebe3,0x29d4f654,
    0xc5a92679,0xc1683bce,0xcc2b1d17,0xc8ea00a0,0xd6ad50a5,0xd26c4d12,0xdf2f6bcb,0xdbee767c,
    0xe3a1cbc1,0xe760d676,0xea23f0af,0xeee2ed18,0xf0a5bd1d,0xf464a0aa,0xf9278673,0xfde69bc4,
    0x89b8fd09,0x8d79e0be,0x803ac667,0x84fbdbd0,0x9abc8bd5,0x9e7d9662,0x933eb0bb,0x97ffad0c,
    0xafb010b1,0xab710d06,0xa6322bdf,0xa2f33668,0xbcb4666d,0xb8757bda,0xb5365d03,0xb1f740b4]

/-- One step of the CRC update rule of `crc32()`:
`crc = (crc << 8) ^ crc32_table[(crc >> 24) ^ *ptr]`, in 32-bit arithmetic. -/
def crc32_step (crc b : Nat) : Nat :=
  ((crc <<< 8) ^^^ crc32_table.getD ((crc >>> 24) ^^^ b) 0) % 4294967296

/-- `crc32(crc, buf, len)` of `sw/mxprog.c`: fold the per-byte update rule
over the buffer, starting from the caller-provided seed. -/
def crc32 (crc : Nat) (buf : List Nat) : Nat :=
  buf.foldl crc32_step crc

/-- The four bytes of a `uint32_t` as they appear on the wire when sent
with `puts_binary(&crc, sizeof (crc))` or `send_ll_bin((uint8_t *)&crc, 4)`
on the little-endian STM32 / x86 peers (native byte order, no conversion). -/
def u32le (c : Nat) : List Nat :=
  [c % 256, c / 256 % 256, c / 65536 % 256, c / 16777216 % 256]

/-- Rebuilding a `uint32_t` from four received bytes stored byte by byte
into its memory (`((uint8_t *)&compcrc)[pos] = ch` on a little-endian CPU). -/
def le32 (l : List Nat) : Nat :=
  l.getD 0 0 + 256 * l.getD 1 0 + 65536 * l.getD 2 0 + 16777216 * l.getD 3 0

theorem crc32_step_lt (crc b : Nat) : crc32_step crc b < 4294967296 :=
  Nat.mod_lt _ (by norm_num)

theorem crc32_lt (seed : Nat) (l : List Nat) (h : seed < 4294967296) :
    crc32 seed l < 4294967296 := by
  induction l generalizing seed with
  | nil => exact h
  | cons b rest ih => exact ih _ (crc32_step_lt seed b)

theorem le32_u32le (c : Nat) (h : c < 4294967296) : le32 (u32le c) = c := by
  simp only [u32le, le32, List.getD_cons_zero, List.getD_cons_succ]
  omega

theorem u32le_length (c : Nat) : (u32le c).length = 4 := rfl


/-! ## Return codes (`fw/cmdline.h`, `sw/mxprog.c`) -/

def RC_SUCCESS : Nat := 0
def RC_FAILURE : Nat := 1

/-- `DATA_CRC_INTERVAL` of `fw/prom_access.c` / `sw/mxprog.c`: the checkpoint
interval of the windowed protocol. -/
def DATA_CRC_INTERVAL : Nat := 256

/-- Number of chunks (checkpoints) a transfer of `n` bytes is split into. -/
def numChunks (n : Nat) : Nat := (n + 255) / 256

/-! ## Device-side read sender: `prom_read_binary` (`fw/prom_access.c` 188-272)

Modelled with a fault-free backend (`prom_read` returns `RC_SUCCESS` and the
requested slice of the image `b`) and a fault-free transmit path
(`puts_binary` always succeeds). The acknowledgment bytes available from the
host are the list `acks`, consumed first-in-first-out exactly as `check_rc`
reads them from the console stream; an empty list at a `check_rc` call is the
receive timeout. The `cap_pos` circular array only carries positions for the
diagnostic printf inside `check_rc`, so the model keeps the count `cap_count`
and consumes acknowledgments in arrival order.

At the top of every iteration of the source's `while (len > 0)` loop,
`crc_next == DATA_CRC_INTERVAL` holds: `crc_next` is reset whenever it
reaches 0, and when it stays nonzero (`tlen < 256`) the loop exits because
`len` was exhausted. Hence `tlen = min(256, len)` and the `crc_next == 0`
test is `tlen == 256`. -/

structure ReadSendRes where
  /-- Bytes emitted towards the host, in order. -/
  out   : List Nat
  /-- The cumulative CRC values emitted, in order. -/
  crcs  : List Nat
  /-- Value of `cap_count` immediately after each checkpoint is recorded
  (`cap_count++`); between these events the count only decreases. -/
  caps  : List Nat
  /-- The `rc_t` value returned. -/
  rc    : Nat
  deriving DecidableEq

/-- The trailing-acknowledgment drain loop (`while (cap_count-- > 0)`):
consume `capCount` acknowledgment bytes; `none` when one is missing
(`check_rc` timeout) or nonzero (remote reported an error). -/
def drainAcks (capCount : Nat) (acks : List Nat) : Option (List Nat) :=
  match capCount, acks with
  | 0, rest => some rest
  | _ + 1, [] => none
  | n + 1, a :: rest => if a ≠ 0 then none else drainAcks n rest

/-- The code after the main loop of `prom_read_binary`: send the CRC of a
final short segment (when `crc_next != DATA_CRC_INTERVAL`), drain the
outstanding acknowledgments, then check the acknowledgment of the final
short segment. -/
def promReadEpilogue (lastShort : Bool) (crc capCount : Nat)
    (acks : List Nat) : ReadSendRes :=
  let out := if lastShort then u32le crc else []
  let crcs := if lastShort then [crc] else []
  match drainAcks capCount acks with
  | none => { out := out, crcs := crcs, caps := [], rc := RC_FAILURE }
  | some rest =>
    if lastShort then
      match rest with
      | [] => { out := out, crcs := crcs, caps := [], rc := RC_FAILURE }
      | a :: _ =>
        if a ≠ 0 then { out := out, crcs := crcs, caps := [], rc := RC_FAILURE }
        else { out := out, crcs := crcs, caps := [], rc := RC_SUCCESS }
    else { out := out, crcs := crcs, caps := [], rc := RC_SUCCESS }

/-- The main loop of `prom_read_binary`, one call per iteration. -/
def promReadGo (bytes : List Nat) (crc capCount : Nat) (acks : List Nat) :
    ReadSendRes :=
  match bytes with
  | [] => promReadEpilogue false crc capCount acks
  | x :: xs =>
    let bs := x :: xs
    let tlen := min 256 bs.length
    let chunk := bs.take tlen
    let rest := bs.drop tlen
    let crc' := crc32 crc chunk
    -- the status byte of the successful `prom_read`, then the payload
    let emitted := RC_SUCCESS :: chunk
    -- window at capacity: consume the oldest pending acknowledgment first
    let step : Option (Nat × List Nat) :=
      if capCount ≥ 4 then
        match acks with
        | [] => none
        | a :: r => if a ≠ 0 then none else some (capCount - 1, r)
      else some (capCount, acks)
    match step with
    | none => { out := emitted, crcs := [], caps := [], rc := RC_FAILURE }
    | some (cc, acks') =>
      if tlen = 256 then
        -- `crc_next` reached 0: emit the cumulative CRC, record the checkpoint
        let res := promReadGo rest crc' (cc + 1) acks'
        { out := emitted ++ u32le crc' ++ res.out, crcs := crc' :: res.crcs,
          caps := (cc + 1) :: res.caps, rc := res.rc }
      else
        -- short final segment: the loop exits with `crc_next != 256`
        let res := promReadEpilogue true crc' cc acks'
        { out := emitted ++ res.out, crcs := res.crcs, caps := res.caps,
          rc := res.rc }
  termination_by bytes.length
  decreasing_by simp [List.length_drop] <;> omega

/-- `prom_read_binary(addr, len)` with a fault-free backend whose content at
`[addr, addr+len)` is the byte list `b`. -/
def prom_read_binary (b : List Nat) (acks : List Nat) : ReadSendRes :=
  promReadGo b 0 0 acks

/-! ## Host-side receiver: `receive_ll_crc` (`sw/mxprog.c` 969-1021) with its
helpers `check_crc` (898-926) and `report_remote_failure_message` (877-892).

`receive_ll(buf, n, timeout, exact)` drains the receive ring buffer until
`n` bytes arrived or the per-byte timeout fires; over a delivered-bytes
stream it returns `min n available` bytes. A severed link is the end of the
stream. -/

/-- `report_remote_failure_message()`: read up to 64 bytes (100 ms timeout);
a remote failure message is recognized iff more than two bytes arrived and
the first two are ASCII spaces. Returns (recognized, unconsumed stream). -/
def report_remote_failure_message (input : List Nat) : Bool × List Nat :=
  let buf := input.take 64
  (decide (buf.length > 2) && decide (buf.getD 0 0 = 32) &&
     decide (buf.getD 1 0 = 32),
   input.drop 64)

structure CheckCrcRes where
  /-- Value returned by `check_crc`. -/
  ret  : Int
  /-- Bytes of the link stream not consumed. -/
  rest : List Nat
  /-- Status bytes sent back to the device. -/
  acks : List Nat
  /-- The remote-failure-message branch recognized a message. -/
  remoteMsg : Bool
  deriving DecidableEq

/-- Host-side `check_crc` with `send_status = true`, as called from
`receive_ll_crc`. `junk` models the uninitialized trailing bytes of
`compcrc` when fewer than 4 CRC bytes arrive before the link goes silent
(the code only treats *zero* received bytes as a timeout). -/
def check_crc_sw (crc : Nat) (input : List Nat) (junk : List Nat) :
    CheckCrcRes :=
  match input with
  | [] => { ret := 1, rest := [], acks := [], remoteMsg := false }
  | _ :: _ =>
    let compcrc := le32 (input.take 4 ++ junk)
    let rest := input.drop 4
    if compcrc ≠ crc then
      if compcrc = 0x20202020 then
        let m := report_remote_failure_message rest
        if m.1 then { ret := 1, rest := m.2, acks := [], remoteMsg := true }
        else { ret := 1, rest := m.2, acks := [1], remoteMsg := false }
      else { ret := 1, rest := rest, acks := [1], remoteMsg := false }
    else { ret := 0, rest := rest, acks := [0], remoteMsg := false }

structure RecvRes where
  /-- Value returned by `receive_ll_crc` (-1 or the completed byte count). -/
  ret  : Int
  /-- Bytes stored into the caller's buffer. -/
  buf  : List Nat
  /-- Status (acknowledgment) bytes sent back to the device, in order. -/
  acks : List Nat
  deriving DecidableEq

/-- The `while (pos < buflen)` loop of `receive_ll_crc`. When the delivered
stream holds fewer than `tlen` payload bytes the source's
`received < tlen` exit coincides with the `check_crc` timeout exit (the
stream is exhausted, so `check_crc` necessarily times out and both exits
return `pos + received` having sent the same — empty — status), which the
model's first branch captures. -/
def receiveLLCrcGo (input : List Nat) (buflen pos crc : Nat)
    (junk : List Nat) : RecvRes :=
  if h : pos ≥ buflen then { ret := (pos : Int), buf := [], acks := [] }
  else
    let tlen := min (buflen - pos) 256
    match input with
    | [] => { ret := -1, buf := [], acks := [] }
    | rc :: rest =>
      if rc ≠ 0 then { ret := -1, buf := [], acks := [] }
      else if hlen : rest.length < tlen then
        -- short read: all remaining bytes become payload, then `check_crc`
        -- finds the stream exhausted and the transfer ends at `pos + received`
        { ret := ((pos + rest.length : Nat) : Int), buf := rest,
          acks := (check_crc_sw (crc32 crc rest) (rest.drop tlen) junk).acks }
      else
        let payload := rest.take tlen
        let c' := crc32 crc payload
        let chk := check_crc_sw c' (rest.drop tlen) junk
        if chk.ret ≠ 0 then
          { ret := ((pos + tlen : Nat) : Int), buf := payload,
            acks := chk.acks }
        else
          let res := receiveLLCrcGo chk.rest buflen (pos + tlen) c' junk
          { ret := res.ret, buf := payload ++ res.buf,
            acks := chk.acks ++ res.acks }
  termination_by buflen - pos
  decreasing_by omega

/-- `receive_ll_crc(buf, buflen)` over a delivered-bytes stream. -/
def receive_ll_crc (input : List Nat) (buflen : Nat) (junk : List Nat) :
    RecvRes :=
  receiveLLCrcGo input buflen 0 0 junk

/-! ## The read-direction wire framing, chunk by chunk -/

/-- The byte-exact framing of a read-direction transfer of image `b` with
initial CRC seed `seed`: per chunk a zero status byte, up to 256 payload
bytes, and the cumulative CRC in native byte order. This is the framing the
spec describes; the theorems below relate it to `prom_read_binary`'s actual
emission and to what `receive_ll_crc` consumes. -/
def readFrames (b : List Nat) (seed : Nat) : List Nat :=
  match b with
  | [] => []
  | x :: xs =>
    let bs := x :: xs
    let chunk := bs.take 256
    let c' := crc32 seed chunk
    0 :: chunk ++ u32le c' ++ readFrames (bs.drop 256) c'
  termination_by b.length
  decreasing_by simp [List.length_drop] <;> omega

/-- The chunk CRC chain of a read-direction transfer. -/
def frameCrcs (b : List Nat) (seed : Nat) : List Nat :=
  match b with
  | [] => []
  | x :: xs =>
    let bs := x :: xs
    let c' := crc32 seed (bs.take 256)
    c' :: frameCrcs (bs.drop 256) c'
  termination_by b.length
  decreasing_by simp [List.length_drop] <;> omega


/-! ## Host-side write sender: `send_ll_crc` (`sw/mxprog.c` 1099-1160)

Modelled with a fault-free transmit path (`send_ll_bin` always succeeds);
the acknowledgment bytes available from the device are the list `acks`.
The initial `discard_input(250)` only empties stale receive-buffer content
and is not part of the wire exchange. Note that this direction sends no
per-chunk status byte: each chunk is payload followed by the cumulative
CRC. The CRC is sent after every chunk, including a short final one. -/

structure WriteSendRes where
  /-- Bytes emitted towards the device, in order. -/
  out  : List Nat
  /-- The cumulative CRC values emitted, in order. -/
  crcs : List Nat
  /-- Value of `cap_count` immediately after each checkpoint is recorded. -/
  caps : List Nat
  /-- Return value (0 success, `RC_FAILURE` on a bad/missing ack). -/
  ret  : Nat
  deriving DecidableEq

/-- The `while (pos < len)` loop of `send_ll_crc`. -/
def sendLLCrcGo (data : List Nat) (crc capCount : Nat) (acks : List Nat) :
    WriteSendRes :=
  match data with
  | [] =>
    match drainAcks capCount acks with
    | none => { out := [], crcs := [], caps := [], ret := 1 }
    | some _ => { out := [], crcs := [], caps := [], ret := 0 }
  | x :: xs =>
    let bs := x :: xs
    let tlen := min 256 bs.length
    let chunk := bs.take tlen
    let rest := bs.drop tlen
    let crc' := crc32 crc chunk
    -- window at capacity (2): consume the oldest pending acknowledgment
    let step : Option (Nat × List Nat) :=
      if capCount ≥ 2 then
        match acks with
        | [] => none
        | a :: r => if a ≠ 0 then none else some (capCount - 1, r)
      else some (capCount, acks)
    match step with
    | none => { out := chunk, crcs := [], caps := [], ret := RC_FAILURE }
    | some (cc, acks') =>
      let res := sendLLCrcGo rest crc' (cc + 1) acks'
      { out := chunk ++ u32le crc' ++ res.out, crcs := crc' :: res.crcs,
        caps := (cc + 1) :: res.caps, ret := res.ret }
  termination_by data.length
  decreasing_by simp [List.length_drop] <;> omega

/-- `send_ll_crc(data, len)` over an acknowledgment stream. -/
def send_ll_crc (data : List Nat) (acks : List Nat) : WriteSendRes :=
  sendLLCrcGo data 0 0 acks

/-! ## Device-side write receiver: `prom_write_binary`
(`fw/prom_access.c` 282-351) with its helper `check_crc` (144-166).

`getchar()` polls the console ring buffer; over a delivered-bytes stream an
exhausted stream is the `getchar_wait` / data-receive timeout. The EEPROM
backend `prom_write` is fault-free and recorded as a write event
`(addr, block bytes)`; `mx_enable()` and the electrical layer are below this
model. The `fail:` path sends the failing `rc` byte to the host and
discards pending input. -/

def RC_TIMEOUT_FW : Nat := 7

structure FwCheckRes where
  /-- `check_crc` return value (0 ok, 1 mismatch, `RC_TIMEOUT_FW`). -/
  ret  : Nat
  /-- Unconsumed stream. -/
  rest : List Nat
  deriving DecidableEq

/-- Device-side `check_crc` (called with `send_rc = false`): read 4 CRC
bytes (200 ms timeout each), compare with the local cumulative CRC. -/
def check_crc_fw (crc : Nat) (input : List Nat) : FwCheckRes :=
  if input.length < 4 then { ret := RC_TIMEOUT_FW, rest := input.drop 4 }
  else if crc ≠ le32 (input.take 4) then { ret := 1, rest := input.drop 4 }
  else { ret := 0, rest := input.drop 4 }

structure PwInnerRes where
  /-- False when the `goto fail` path was taken (timeout or CRC mismatch). -/
  ok      : Bool
  /-- The `rc` value at the `fail:` label (meaningful when `ok = false`). -/
  failRc  : Nat
  /-- Unconsumed stream. -/
  rest    : List Nat
  /-- Cumulative CRC after the consumed bytes. -/
  crc     : Nat
  /-- `crc_next` after the consumed bytes. -/
  crcNext : Nat
  /-- Status bytes sent to the host during this block, in order. -/
  acks    : List Nat
  /-- Bytes stored into `buf` during this block. -/
  got     : List Nat
  deriving DecidableEq

/-- The inner `for (pos = 0; pos < tlen; pos++)` byte loop of
`prom_write_binary`: read one byte, update the CRC, and at each point where
`--crc_next` reaches 0 verify the checkpoint CRC and send a status byte. -/
def pwInner (input : List Nat) (toRead : Nat) (crc crcNext : Nat) :
    PwInnerRes :=
  match toRead with
  | 0 => { ok := true, failRc := 0, rest := input, crc := crc,
           crcNext := crcNext, acks := [], got := [] }
  | n + 1 =>
    match input with
    | [] => { ok := false, failRc := RC_TIMEOUT_FW, rest := [], crc := crc,
              crcNext := crcNext, acks := [], got := [] }
    | ch :: rest =>
      let crc' := crc32_step crc ch
      if crcNext = 1 then
        -- `--crc_next == 0`: verify the checkpoint CRC against the stream
        let chk := check_crc_fw crc' rest
        if chk.ret ≠ 0 then
          { ok := false, failRc := RC_FAILURE, rest := chk.rest, crc := crc',
            crcNext := 0, acks := [], got := [ch] }
        else
          let res := pwInner chk.rest n crc' DATA_CRC_INTERVAL
          { ok := res.ok, failRc := res.failRc, rest := res.rest,
            crc := res.crc, crcNext := res.crcNext,
            acks := RC_SUCCESS :: res.acks, got := ch :: res.got }
      else
        let res := pwInner rest n crc' (crcNext - 1)
        { ok := res.ok, failRc := res.failRc, rest := res.rest,
          crc := res.crc, crcNext := res.crcNext, acks := res.acks,
          got := ch :: res.got }

structure PwRes where
  /-- The `rc_t` value returned. -/
  rc     : Nat
  /-- The `prom_write(addr, tlen, buf)` events, in order. -/
  writes : List (Nat × List Nat)
  /-- Status bytes sent to the host, in order. -/
  acks   : List Nat
  deriving DecidableEq

/-- The `while (len > 0)` loop of `prom_write_binary` and its epilogue:
each iteration fills at most the rest of the 128-byte-aligned block
containing `addr` (`tlen = min(len, sizeof (buf) - (addr & 127))`), then
commits it with `prom_write`. -/
def promWriteGo (addr len : Nat) (input : List Nat) (crc crcNext : Nat) :
    PwRes :=
  if hlen : len = 0 then
    if crcNext ≠ DATA_CRC_INTERVAL then
      -- checkpoint for the final short segment
      if (check_crc_fw crc input).ret ≠ 0 then
        { rc := RC_FAILURE, writes := [], acks := [RC_FAILURE] }
      else
        { rc := RC_SUCCESS, writes := [], acks := [RC_SUCCESS] }
    else { rc := RC_SUCCESS, writes := [], acks := [] }
  else
    let tlen := min len (128 - addr % 128)
    let inner := pwInner input tlen crc crcNext
    if inner.ok then
      let res := promWriteGo (addr + tlen) (len - tlen) inner.rest inner.crc
        inner.crcNext
      { rc := res.rc, writes := (addr, inner.got) :: res.writes,
        acks := inner.acks ++ res.acks }
    else
      -- `fail:` — inform the remote side, discard input, return rc
      { rc := inner.failRc, writes := [], acks := inner.acks ++ [inner.failRc] }
  termination_by len
  decreasing_by omega

/-- `prom_write_binary(addr, len)` over a delivered-bytes stream. -/
def prom_write_binary (addr len : Nat) (input : List Nat) : PwRes :=
  promWriteGo addr len input 0 DATA_CRC_INTERVAL

/-! ## Byte ring buffers

`rx_rb_put` / `rx_rb_get` (`sw/mxprog.c` 306-339, capacity 8192),
`tx_rb_put` / `tx_rb_get` / `tx_rb_space` (349-398, capacity 4096) and the
firmware console ring `cons_rb_put` / `cons_rb_get` (`fw/uart.c` 118-155,
capacity 1024) share one shape: an array plus producer/consumer cursors mod
the capacity, one slot wasted to tell full from empty. The shared model is
parameterized by the array; each cited instance fixes its capacity. -/

structure RingBuf where
  data : Array Nat
  prod : Nat
  cons : Nat
  deriving DecidableEq

/-- `rx_rb_put` / `tx_rb_put`: `true` = failure (buffer full, byte
discarded, state unchanged). The stored value is the `(uint8_t) ch` cast. -/
def rb_put (rb : RingBuf) (ch : Nat) : Bool × RingBuf :=
  let new_prod := (rb.prod + 1) % rb.data.size
  if new_prod = rb.cons then (true, rb)
  else (false, { rb with data := rb.data.setD rb.prod (ch % 256),
                         prod := new_prod })

/-- `rx_rb_get` / `tx_rb_get` / `cons_rb_get`: -1 when the ring is empty. -/
def rb_get (rb : RingBuf) : Int × RingBuf :=
  if rb.cons = rb.prod then (-1, rb)
  else ((rb.data.getD rb.cons 0 : Int),
        { rb with cons := (rb.cons + 1) % rb.data.size })

/-- States reachable from the initial all-zero buffer by `put`/`get`. -/
inductive RbReachable (cap : Nat) : RingBuf → Prop where
  | init : RbReachable cap ⟨Array.mkArray cap 0, 0, 0⟩
  | put (rb : RingBuf) (ch : Nat) : RbReachable cap rb →
      RbReachable cap (rb_put rb ch).2
  | get (rb : RingBuf) : RbReachable cap rb → RbReachable cap (rb_get rb).2

/-- Number of bytes currently queued. -/
def rbCount (rb : RingBuf) : Nat :=
  (rb.prod + rb.data.size - rb.cons) % rb.data.size

/-- The queued bytes, oldest first. -/
def rbContents (rb : RingBuf) : List Nat :=
  (List.range (rbCount rb)).map
    fun i => rb.data.getD ((rb.cons + i) % rb.data.size) 0

/-- `cons_rb_put` (`fw/uart.c` 118-132): on a full ring the newly arrived
byte is discarded and a single percent character (0x25) is emitted on the
UART; otherwise the byte is stored. Returns the new state and the bytes
written to the UART. -/
def cons_rb_put (rb : RingBuf) (ch : Nat) : RingBuf × List Nat :=
  let new_prod := (rb.prod + 1) % rb.data.size
  if new_prod = rb.cons then (rb, [37])
  else ({ rb with data := rb.data.setD rb.prod (ch % 256),
                  prod := new_prod }, [])

def SOURCE_UART : Nat := 0
def SOURCE_USB : Nat := 1

/-- `usb_rb_put` (`fw/uart.c` 201-206): store via `cons_rb_put` and mark USB
as the last input source. State is (ring, last_input_source). -/
def usb_rb_put (st : RingBuf × Nat) (ch : Nat) :
    (RingBuf × Nat) × List Nat :=
  let r := cons_rb_put st.1 ch
  ((r.1, SOURCE_USB), r.2)

/-- `uart_rb_put` (`fw/uart.c` 208-213): store via `cons_rb_put` and mark
the UART as the last input source. -/
def uart_rb_put (st : RingBuf × Nat) (ch : Nat) :
    (RingBuf × Nat) × List Nat :=
  let r := cons_rb_put st.1 ch
  ((r.1, SOURCE_UART), r.2)


/-! ## Helper lemmas -/

theorem crc32_append (seed : Nat) (a b : List Nat) :
    crc32 (crc32 seed a) b = crc32 seed (a ++ b) :=
  (List.foldl_append ..).symm

theorem crc32_cons (seed h : Nat) (t : List Nat) :
    crc32 seed (h :: t) = crc32 (crc32_step seed h) t := rfl

theorem le32_of_length_four (l j : List Nat) (h : l.length = 4) :
    le32 (l ++ j) = le32 l := by
  match l, h with
  | [a, b, c, d], _ => rfl

theorem drainAcks_replicate (n m : Nat) (h : n ≤ m) :
    drainAcks n (List.replicate m 0) = some (List.replicate (m - n) 0) := by
  induction n generalizing m with
  | zero => simp [drainAcks]
  | succ k ih =>
    match m, h with
    | j + 1, h =>
      simp only [List.replicate_succ, drainAcks, ne_eq, not_true_eq_false,
        if_false, reduceIte]
      rw [ih j (Nat.succ_le_succ_iff.mp h)]
      congr 2
      omega

theorem promReadEpilogue_drained (crc cc m : Nat) (h : cc ≤ m) :
    promReadEpilogue false crc cc (List.replicate m 0) =
      ⟨[], [], [], RC_SUCCESS⟩ := by
  simp [promReadEpilogue, drainAcks_replicate cc m h]

theorem promReadEpilogue_short (crc cc m : Nat) (h : cc < m) :
    promReadEpilogue true crc cc (List.replicate m 0) =
      ⟨u32le crc, [crc], [], RC_SUCCESS⟩ := by
  have h1 : cc ≤ m := h.le
  simp only [promReadEpilogue, drainAcks_replicate cc m h1]
  have h2 : m - cc = (m - cc - 1) + 1 := by omega
  rw [h2, List.replicate_succ]
  simp


theorem numChunks_zero : numChunks 0 = 0 := rfl

theorem numChunks_pos (n : Nat) (h : 0 < n) : 0 < numChunks n := by
  simp only [numChunks]
  omega

theorem numChunks_step (n : Nat) (h : 256 ≤ n) :
    numChunks n = numChunks (n - 256) + 1 := by
  simp only [numChunks]
  omega

theorem numChunks_one (n : Nat) (h1 : 0 < n) (h2 : n ≤ 256) :
    numChunks n = 1 := by
  simp only [numChunks]
  omega

theorem promReadGo_cons_step (x : Nat) (xs : List Nat) (crc cc : Nat)
    (acks : List Nat) (hcc : cc < 4) :
    promReadGo (x :: xs) crc cc acks =
      (if min 256 (xs.length + 1) = 256 then
        { out := RC_SUCCESS :: (x :: xs).take (min 256 (xs.length + 1)) ++
            u32le (crc32 crc ((x :: xs).take (min 256 (xs.length + 1)))) ++
            (promReadGo ((x :: xs).drop (min 256 (xs.length + 1)))
              (crc32 crc ((x :: xs).take (min 256 (xs.length + 1))))
              (cc + 1) acks).out,
          crcs := crc32 crc ((x :: xs).take (min 256 (xs.length + 1))) ::
            (promReadGo ((x :: xs).drop (min 256 (xs.length + 1)))
              (crc32 crc ((x :: xs).take (min 256 (xs.length + 1))))
              (cc + 1) acks).crcs,
          caps := (cc + 1) ::
            (promReadGo ((x :: xs).drop (min 256 (xs.length + 1)))
              (crc32 crc ((x :: xs).take (min 256 (xs.length + 1))))
              (cc + 1) acks).caps,
          rc := (promReadGo ((x :: xs).drop (min 256 (xs.length + 1)))
              (crc32 crc ((x :: xs).take (min 256 (xs.length + 1))))
              (cc + 1) acks).rc }
      else
        { out := RC_SUCCESS :: (x :: xs).take (min 256 (xs.length + 1)) ++
            (promReadEpilogue true
              (crc32 crc ((x :: xs).take (min 256 (xs.length + 1))))
              cc acks).out,
          crcs := (promReadEpilogue true
              (crc32 crc ((x :: xs).take (min 256 (xs.length + 1))))
              cc acks).crcs,
          caps := (promReadEpilogue true
              (crc32 crc ((x :: xs).take (min 256 (xs.length + 1))))
              cc acks).caps,
          rc := (promReadEpilogue true
              (crc32 crc ((x :: xs).take (min 256 (xs.length + 1))))
              cc acks).rc }) := by
  rw [promReadGo.eq_def]
  simp only [List.length_cons, if_neg (by omega : ¬ cc ≥ 4)]

theorem promReadGo_cons_full (x : Nat) (xs : List Nat) (crc : Nat)
    (acks : List Nat) :
    promReadGo (x :: xs) crc 4 (0 :: acks) = promReadGo (x :: xs) crc 3 acks := by
  rw [promReadGo.eq_def, promReadGo.eq_def _ _ 3]
  simp

theorem promReadGo_cons_stall (x : Nat) (xs : List Nat) (crc : Nat) :
    promReadGo (x :: xs) crc 4 [] =
      { out := RC_SUCCESS :: (x :: xs).take (min 256 (xs.length + 1)),
        crcs := [], caps := [], rc := RC_FAILURE } := by
  rw [promReadGo.eq_def]
  simp

theorem take_min_length {A : Type} (l : List A) (n : Nat) :
    l.take (min n l.length) = l.take n := by
  rw [List.take_eq_take]
  omega

theorem drop_min_length {A : Type} (l : List A) (n : Nat) :
    l.drop (min n l.length) = l.drop n := by
  rcases Nat.le_total n l.length with h | h
  · rw [Nat.min_eq_left h]
  · rw [Nat.min_eq_right h, List.drop_length,
      List.drop_eq_nil_of_le h]

theorem readFrames_cons (x : Nat) (xs : List Nat) (seed : Nat) :
    readFrames (x :: xs) seed =
      0 :: (x :: xs).take 256 ++ u32le (crc32 seed ((x :: xs).take 256)) ++
        readFrames ((x :: xs).drop 256) (crc32 seed ((x :: xs).take 256)) := by
  rw [readFrames.eq_def]

theorem frameCrcs_cons (x : Nat) (xs : List Nat) (seed : Nat) :
    frameCrcs (x :: xs) seed =
      crc32 seed ((x :: xs).take 256) ::
        frameCrcs ((x :: xs).drop 256) (crc32 seed ((x :: xs).take 256)) := by
  rw [frameCrcs.eq_def]

/-- One chunk of the fault-free read-sender run, window not at capacity:
helper for `promReadGo_spec` taking the induction hypothesis as argument. -/
theorem promReadGo_spec_core (k : Nat)
    (ih : ∀ (b : List Nat), b.length ≤ k →
      ∀ (crc cc m : Nat), cc ≤ 4 → cc + numChunks b.length ≤ m →
      (promReadGo b crc cc (List.replicate m 0)).out = readFrames b crc ∧
      (promReadGo b crc cc (List.replicate m 0)).crcs = frameCrcs b crc ∧
      (promReadGo b crc cc (List.replicate m 0)).rc = RC_SUCCESS)
    (x : Nat) (xs : List Nat) (hb : xs.length + 1 ≤ k + 1)
    (crc cc m : Nat) (hcc : cc < 4)
    (hm : cc + numChunks (xs.length + 1) ≤ m) :
    (promReadGo (x :: xs) crc cc (List.replicate m 0)).out =
      readFrames (x :: xs) crc ∧
    (promReadGo (x :: xs) crc cc (List.replicate m 0)).crcs =
      frameCrcs (x :: xs) crc ∧
    (promReadGo (x :: xs) crc cc (List.replicate m 0)).rc = RC_SUCCESS := by
  rw [promReadGo_cons_step x xs crc cc _ hcc]
  have hlenx : (x :: xs).length = xs.length + 1 := rfl
  by_cases hlen : min 256 (xs.length + 1) = 256
  · rw [if_pos hlen]
    have h256 : 256 ≤ xs.length + 1 := by omega
    have htk : (x :: xs).take (min 256 (xs.length + 1)) = (x :: xs).take 256 := by
      rw [← hlenx, take_min_length]
    have hdp : (x :: xs).drop (min 256 (xs.length + 1)) = (x :: xs).drop 256 := by
      rw [← hlenx, drop_min_length]
    have hdl : ((x :: xs).drop 256).length = xs.length + 1 - 256 := by
      simp [List.length_drop]
    have hnc : numChunks (xs.length + 1) =
        numChunks (xs.length + 1 - 256) + 1 := numChunks_step _ h256
    have ihres := ih ((x :: xs).drop 256) (by omega)
      (crc32 crc ((x :: xs).take 256)) (cc + 1) m (by omega)
      (by rw [hdl]; omega)
    rw [htk, hdp]
    rw [readFrames_cons, frameCrcs_cons]
    refine ⟨?_, ?_, ?_⟩
    · simp only [ihres.1, RC_SUCCESS]
    · simp only [ihres.2.1]
    · simp only [ihres.2.2]
  · rw [if_neg hlen]
    have hsh : xs.length + 1 < 256 := by
      rcases Nat.le_total 256 (xs.length + 1) with h | h
      · exact absurd (by omega : min 256 (xs.length + 1) = 256) hlen
      · omega
    have hmin : min 256 (xs.length + 1) = xs.length + 1 := by omega
    have hnc : numChunks (xs.length + 1) = 1 := numChunks_one _ (by omega) (by omega)
    have htk : (x :: xs).take (min 256 (xs.length + 1)) = x :: xs := by
      rw [hmin, ← hlenx, List.take_length]
    have htk2 : (x :: xs).take 256 = x :: xs :=
      List.take_of_length_le (by omega)
    have hdp2 : (x :: xs).drop 256 = [] :=
      List.drop_eq_nil_of_le (by omega)
    rw [htk]
    rw [promReadEpilogue_short _ cc m (by omega)]
    rw [readFrames_cons, frameCrcs_cons, htk2, hdp2]
    rw [readFrames.eq_def, frameCrcs.eq_def]
    exact ⟨by simp [RC_SUCCESS], rfl, rfl⟩

/-- Fault-free characterization of the read-sender main loop: starting with
at most 4 outstanding checkpoints and enough zero acknowledgments, the loop
emits exactly the chunked wire framing, the chained chunk CRCs, and returns
success. -/
theorem promReadGo_spec (n : Nat) : ∀ (b : List Nat), b.length ≤ n →
    ∀ (crc cc m : Nat), cc ≤ 4 → cc + numChunks b.length ≤ m →
    (promReadGo b crc cc (List.replicate m 0)).out = readFrames b crc ∧
    (promReadGo b crc cc (List.replicate m 0)).crcs = frameCrcs b crc ∧
    (promReadGo b crc cc (List.replicate m 0)).rc = RC_SUCCESS := by
  induction n with
  | zero =>
    intro b hb crc cc m hcc hm
    have hb0 : b = [] := List.length_eq_zero.mp (Nat.le_zero.mp hb)
    subst hb0
    simp only [List.length_nil, numChunks_zero] at hm
    simp only [promReadGo, readFrames, frameCrcs]
    rw [promReadEpilogue_drained crc cc m (by omega)]
    exact ⟨rfl, rfl, rfl⟩
  | succ k ih =>
    intro b hb crc cc m hcc hm
    match b with
    | [] =>
      simp only [List.length_nil, numChunks_zero] at hm
      simp only [promReadGo, readFrames, frameCrcs]
      rw [promReadEpilogue_drained crc cc m (by omega)]
      exact ⟨rfl, rfl, rfl⟩
    | x :: xs =>
      simp only [List.length_cons] at hb hm
      rcases Nat.lt_or_ge cc 4 with hc | hc
      · exact promReadGo_spec_core k ih x xs hb crc cc m hc hm
      · have hcc4 : cc = 4 := le_antisymm hcc hc
        subst hcc4
        have hch1 : 1 ≤ numChunks (xs.length + 1) :=
          numChunks_pos _ (by omega)
        obtain ⟨j, rfl⟩ : ∃ j, m = j + 1 := ⟨m - 1, by omega⟩
        rw [List.replicate_succ, promReadGo_cons_full]
        exact promReadGo_spec_core k ih x xs hb crc 3 j (by omega) (by omega)

theorem check_crc_sw_ok (c : Nat) (rest junk : List Nat)
    (hc : c < 4294967296) :
    check_crc_sw c (u32le c ++ rest) junk =
      { ret := 0, rest := rest, acks := [0], remoteMsg := false } := by
  have hc4 : le32 ((u32le c ++ rest).take 4 ++ junk) = c := by
    rw [List.take_left' (u32le_length c),
      le32_of_length_four _ _ (u32le_length c), le32_u32le c hc]
  have hd4 : (u32le c ++ rest).drop 4 = rest := List.drop_left' (u32le_length c)
  obtain ⟨h, t, hu⟩ : ∃ h t, u32le c ++ rest = h :: t := by
    cases hx : u32le c ++ rest with
    | nil =>
      have : (u32le c ++ rest).length = 0 := by rw [hx]; rfl
      simp [List.length_append, u32le_length] at this
    | cons a b => exact ⟨a, b, rfl⟩
  rw [hu] at hc4 hd4 ⊢
  simp only [check_crc_sw, hc4, hd4, ne_eq, not_true_eq_false, if_false,
    reduceIte]

/-- Consuming one well-formed chunk on the host receiver. -/
theorem rxGo_chunk (chunk frest : List Nat) (buflen pos crc : Nat)
    (junk : List Nat) (hpos : pos < buflen)
    (hck : chunk.length = min (buflen - pos) 256)
    (hcrc : crc32 crc chunk < 4294967296) :
    receiveLLCrcGo (0 :: chunk ++ u32le (crc32 crc chunk) ++ frest)
        buflen pos crc junk =
      { ret := (receiveLLCrcGo frest buflen (pos + min (buflen - pos) 256)
          (crc32 crc chunk) junk).ret,
        buf := chunk ++ (receiveLLCrcGo frest buflen
          (pos + min (buflen - pos) 256) (crc32 crc chunk) junk).buf,
        acks := 0 :: (receiveLLCrcGo frest buflen
          (pos + min (buflen - pos) 256) (crc32 crc chunk) junk).acks } := by
  have htk : (chunk ++ (u32le (crc32 crc chunk) ++ frest)).take
      (min (buflen - pos) 256) = chunk := by
    rw [← hck, List.take_left]
  have hdp : (chunk ++ (u32le (crc32 crc chunk) ++ frest)).drop
      (min (buflen - pos) 256) = u32le (crc32 crc chunk) ++ frest := by
    rw [← hck, List.drop_left]
  have hnlt : ¬ (chunk ++ (u32le (crc32 crc chunk) ++ frest)).length <
      min (buflen - pos) 256 := by
    simp only [List.length_append, not_lt]
    omega
  rw [receiveLLCrcGo.eq_def]
  rw [dif_neg (by omega : ¬ pos ≥ buflen)]
  simp only [List.cons_append, List.append_assoc]
  simp only [ne_eq, not_true_eq_false, if_false, reduceIte, hnlt, dif_neg,
    not_false_eq_true, htk, hdp]
  rw [check_crc_sw_ok _ _ _ hcrc]
  simp

/-- The host receiver consumes a complete well-formed framed transfer:
it stores exactly the image, acknowledges every chunk with a zero status
byte, and returns the full byte count. -/
theorem rx_frames_exact (n : Nat) : ∀ (b : List Nat), b.length ≤ n →
    ∀ (crc pos buflen : Nat) (junk : List Nat), crc < 4294967296 →
    pos + b.length = buflen →
    receiveLLCrcGo (readFrames b crc) buflen pos crc junk =
      { ret := (buflen : Int), buf := b,
        acks := List.replicate (numChunks b.length) 0 } := by
  induction n with
  | zero =>
    intro b hb crc pos buflen junk hcrc hpos
    have hb0 : b = [] := List.length_eq_zero.mp (Nat.le_zero.mp hb)
    subst hb0
    simp only [List.length_nil, Nat.add_zero] at hpos
    subst hpos
    rw [readFrames.eq_def]
    rw [receiveLLCrcGo.eq_def]
    simp [numChunks_zero]
  | succ k ih =>
    intro b hb crc pos buflen junk hcrc hpos
    match b with
    | [] =>
      simp only [List.length_nil, Nat.add_zero] at hpos
      subst hpos
      rw [readFrames.eq_def]
      rw [receiveLLCrcGo.eq_def]
      simp [numChunks_zero]
    | x :: xs =>
      simp only [List.length_cons] at hb hpos
      have hpl : pos < buflen := by omega
      have hck : ((x :: xs).take 256).length = min (buflen - pos) 256 := by
        simp only [List.length_take, List.length_cons]
        omega
      have hcrc2 : crc32 crc ((x :: xs).take 256) < 4294967296 :=
        crc32_lt crc _ hcrc
      rw [readFrames_cons]
      rw [rxGo_chunk _ _ buflen pos crc junk hpl hck hcrc2]
      have hdl : ((x :: xs).drop 256).length = xs.length + 1 - 256 := by
        simp [List.length_drop]
      have hmin : min (buflen - pos) 256 = min 256 (xs.length + 1) := by
        omega
      have ihres := ih ((x :: xs).drop 256) (by omega)
        (crc32 crc ((x :: xs).take 256))
        (pos + min (buflen - pos) 256) buflen junk hcrc2
        (by rw [hdl]; omega)
      rw [ihres]
      have hjoin : (x :: xs).take 256 ++ (x :: xs).drop 256 = x :: xs :=
        List.take_append_drop ..
      have hacks : 0 :: List.replicate
          (numChunks ((x :: xs).drop 256).length) 0 =
          List.replicate (numChunks (xs.length + 1)) 0 := by
        rw [hdl]
        by_cases h2 : 256 ≤ xs.length + 1
        · rw [numChunks_step _ h2, List.replicate_succ]
        · have hz : xs.length + 1 - 256 = 0 := by omega
          rw [hz, numChunks_zero,
            numChunks_one _ (by omega) (by omega)]
          rfl
      simp only [hjoin, List.length_cons, hacks]

/-- The host receiver on a transfer severed at a chunk boundary: every
delivered chunk is stored and acknowledged, then the next status read finds
the stream empty and the receiver returns the -1 timeout indication. -/
theorem rx_frames_cut (n : Nat) : ∀ (b : List Nat), b.length ≤ n →
    ∀ (crc pos buflen : Nat) (junk : List Nat), crc < 4294967296 →
    (256 ∣ b.length) → pos + b.length < buflen →
    receiveLLCrcGo (readFrames b crc) buflen pos crc junk =
      { ret := (-1 : Int), buf := b,
        acks := List.replicate (b.length / 256) 0 } := by
  induction n with
  | zero =>
    intro b hb crc pos buflen junk hcrc hdvd hpos
    have hb0 : b = [] := List.length_eq_zero.mp (Nat.le_zero.mp hb)
    subst hb0
    rw [readFrames.eq_def]
    rw [receiveLLCrcGo.eq_def]
    simp only [List.length_nil, Nat.add_zero] at hpos
    rw [dif_neg (by omega : ¬ pos ≥ buflen)]
    rfl
  | succ k ih =>
    intro b hb crc pos buflen junk hcrc hdvd hpos
    match b with
    | [] =>
      rw [readFrames.eq_def]
      rw [receiveLLCrcGo.eq_def]
      simp only [List.length_nil, Nat.add_zero] at hpos
      rw [dif_neg (by omega : ¬ pos ≥ buflen)]
      rfl
    | x :: xs =>
      simp only [List.length_cons] at hb hpos hdvd
      have h256 : 256 ≤ xs.length + 1 := by
        rcases hdvd with ⟨c, hc⟩
        rcases c with _ | c
        · omega
        · omega
      have hpl : pos < buflen := by omega
      have hck : ((x :: xs).take 256).length = min (buflen - pos) 256 := by
        simp only [List.length_take, List.length_cons]
        omega
      have hcrc2 : crc32 crc ((x :: xs).take 256) < 4294967296 :=
        crc32_lt crc _ hcrc
      rw [readFrames_cons]
      rw [rxGo_chunk _ _ buflen pos crc junk hpl hck hcrc2]
      have hdl : ((x :: xs).drop 256).length = xs.length + 1 - 256 := by
        simp [List.length_drop]
      have ihres := ih ((x :: xs).drop 256) (by omega)
        (crc32 crc ((x :: xs).take 256))
        (pos + min (buflen - pos) 256) buflen junk hcrc2
        (by rw [hdl]; rcases hdvd with ⟨c, hc⟩; exact ⟨c - 1, by omega⟩)
        (by rw [hdl]; omega)
      rw [ihres]
      have hjoin : (x :: xs).take 256 ++ (x :: xs).drop 256 = x :: xs :=
        List.take_append_drop ..
      have hacks : 0 :: List.replicate
          (((x :: xs).drop 256).length / 256) 0 =
          List.replicate ((xs.length + 1) / 256) 0 := by
        rw [hdl]
        have hq : (xs.length + 1) / 256 = (xs.length + 1 - 256) / 256 + 1 := by
          omega
        rw [hq, List.replicate_succ]
      simp only [hjoin, List.length_cons, hacks]

theorem promReadEpilogue_caps (ls : Bool) (c cc : Nat) (acks : List Nat) :
    (promReadEpilogue ls c cc acks).caps = [] := by
  unfold promReadEpilogue
  rcases hd : drainAcks cc acks with _ | rest
  · cases ls <;> simp [hd]
  · rcases rest with _ | ⟨a, t⟩ <;> cases ls <;> simp only [hd] <;>
      first
        | rfl
        | (by_cases ha : a = 0 <;> simp [ha])

theorem promReadGo_cons_badack (x : Nat) (xs : List Nat) (crc a : Nat)
    (r : List Nat) (ha : a ≠ 0) :
    promReadGo (x :: xs) crc 4 (a :: r) =
      { out := RC_SUCCESS :: (x :: xs).take (min 256 (xs.length + 1)),
        crcs := [], caps := [], rc := RC_FAILURE } := by
  rw [promReadGo.eq_def]
  simp [ha]

/-- The producer count of in-flight checkpoints never exceeds 4 on the
read sender. -/
theorem promReadGo_caps (n : Nat) : ∀ (b : List Nat), b.length ≤ n →
    ∀ (crc cc : Nat) (acks : List Nat), cc ≤ 4 →
    ∀ v ∈ (promReadGo b crc cc acks).caps, v ≤ 4 := by
  induction n with
  | zero =>
    intro b hb crc cc acks hcc v hv
    have hb0 : b = [] := List.length_eq_zero.mp (Nat.le_zero.mp hb)
    subst hb0
    rw [promReadGo.eq_def] at hv
    simp only [promReadEpilogue_caps] at hv
    exact absurd hv (List.not_mem_nil v)
  | succ k ih =>
    intro b hb crc cc acks hcc v hv
    match b with
    | [] =>
      rw [promReadGo.eq_def] at hv
      simp only [promReadEpilogue_caps] at hv
      exact absurd hv (List.not_mem_nil v)
    | x :: xs =>
      simp only [List.length_cons] at hb
      rcases Nat.lt_or_ge cc 4 with hc | hc
      · rw [promReadGo_cons_step x xs crc cc acks hc] at hv
        by_cases hlen : min 256 (xs.length + 1) = 256
        · rw [if_pos hlen] at hv
          simp only [List.mem_cons] at hv
          rcases hv with rfl | hv
          · omega
          · have hdl : ((x :: xs).drop (min 256 (xs.length + 1))).length =
                xs.length + 1 - 256 := by
              simp [List.length_drop, hlen]
            exact ih _ (by omega) _ (cc + 1) acks (by omega) v hv
        · rw [if_neg hlen] at hv
          simp only [promReadEpilogue_caps] at hv
          exact absurd hv (List.not_mem_nil v)
      · have hcc4 : cc = 4 := le_antisymm hcc hc
        subst hcc4
        match acks with
        | [] =>
          rw [promReadGo_cons_stall] at hv
          exact absurd hv (List.not_mem_nil v)
        | a :: r =>
          by_cases ha : a = 0
          · subst ha
            rw [promReadGo_cons_full] at hv
            -- window consumed one acknowledgment: now count 3
            rcases Nat.lt_or_ge (3 : Nat) 4 with h3 | h3
            · exact (by
                rw [promReadGo_cons_step x xs crc 3 r h3] at hv
                by_cases hlen : min 256 (xs.length + 1) = 256
                · rw [if_pos hlen] at hv
                  simp only [List.mem_cons] at hv
                  rcases hv with rfl | hv
                  · omega
                  · have hdl : ((x :: xs).drop
                        (min 256 (xs.length + 1))).length =
                        xs.length + 1 - 256 := by
                      simp [List.length_drop, hlen]
                    exact ih _ (by omega) _ 4 r (by omega) v hv
                · rw [if_neg hlen] at hv
                  simp only [promReadEpilogue_caps] at hv
                  exact absurd hv (List.not_mem_nil v))
            · omega
          · rw [promReadGo_cons_badack x xs crc a r ha] at hv
            exact absurd hv (List.not_mem_nil v)

/-! ## The write-direction wire framing

In the host-to-device direction each chunk is payload followed by the
cumulative CRC — there is no status byte. `writeFrames b crc crcNext`
is the stream as seen by a device whose checkpoint countdown is `crcNext`:
a CRC word appears after each point where the countdown reaches zero, and
one more after a final short segment. The `max 1` guard only serves
termination; every use has `1 ≤ crcNext ≤ 256`. -/
def writeFrames (b : List Nat) (crc crcNext : Nat) : List Nat :=
  match b with
  | [] => if crcNext = 256 then [] else u32le crc
  | x :: xs =>
    if xs.length + 1 < crcNext then
      (x :: xs) ++ u32le (crc32 crc (x :: xs))
    else
      (x :: xs).take (max 1 crcNext) ++
        u32le (crc32 crc ((x :: xs).take (max 1 crcNext))) ++
        writeFrames ((x :: xs).drop (max 1 crcNext))
          (crc32 crc ((x :: xs).take (max 1 crcNext))) 256
  termination_by b.length
  decreasing_by simp [List.length_drop] <;> omega

/-- The 128-byte-aligned block decomposition that `prom_write_binary`
commits through `prom_write`: each block stops at the next 128-byte
boundary of the address space. -/
def blockSplit (addr : Nat) (b : List Nat) : List (Nat × List Nat) :=
  match b with
  | [] => []
  | x :: xs =>
    (addr, (x :: xs).take (min (xs.length + 1) (128 - addr % 128))) ::
      blockSplit (addr + min (xs.length + 1) (128 - addr % 128))
        ((x :: xs).drop (min (xs.length + 1) (128 - addr % 128)))
  termination_by b.length
  decreasing_by simp [List.length_drop] <;> omega

/-- Number of CRC words in `writeFrames b crc crcNext`. -/
def numCrcsFrom (blen crcNext : Nat) : Nat := (blen + 511 - crcNext) / 256

theorem writeFrames_cons_step (x : Nat) (xs : List Nat) (crc crcNext : Nat)
    (h1 : 2 ≤ crcNext) (h2 : crcNext ≤ 256) :
    writeFrames (x :: xs) crc crcNext =
      x :: writeFrames xs (crc32_step crc x) (crcNext - 1) := by
  rcases Nat.lt_or_ge (xs.length + 1) crcNext with hlt | hge
  · rw [writeFrames.eq_def]
    simp only [List.length_cons, if_pos hlt]
    rcases xs with _ | ⟨y, ys⟩
    · rw [writeFrames.eq_def]
      rw [if_neg (by omega : ¬ crcNext - 1 = 256)]
      rfl
    · rw [writeFrames.eq_def (y :: ys)]
      simp only [List.length_cons] at hlt
      simp only [List.length_cons,
        if_pos (by omega : ys.length + 1 < crcNext - 1)]
      simp [crc32_cons]
  · rcases xs with _ | ⟨y, ys⟩
    · simp only [List.length_nil] at hge
      omega
    · rw [writeFrames.eq_def]
      simp only [List.length_cons] at hge
      simp only [List.length_cons,
        if_neg (by omega : ¬ ys.length + 1 + 1 < crcNext)]
      rw [writeFrames.eq_def (y :: ys)]
      simp only [List.length_cons,
        if_neg (by omega : ¬ ys.length + 1 < crcNext - 1)]
      have hmax : max 1 crcNext = crcNext := by omega
      have hmax2 : max 1 (crcNext - 1) = crcNext - 1 := by omega
      rw [hmax, hmax2]
      obtain ⟨m, rfl⟩ : ∃ m, crcNext = m + 1 := ⟨crcNext - 1, by omega⟩
      simp only [List.take_succ_cons, List.drop_succ_cons,
        Nat.add_sub_cancel, crc32_cons, List.cons_append]

theorem writeFrames_cons_checkpoint (x : Nat) (xs : List Nat) (crc : Nat) :
    writeFrames (x :: xs) crc 1 =
      x :: (u32le (crc32_step crc x) ++
        writeFrames xs (crc32_step crc x) 256) := by
  rw [writeFrames.eq_def]
  simp only [List.length_cons, if_neg (by omega : ¬ xs.length + 1 < 1)]
  have hmax : max 1 1 = 1 := rfl
  rw [hmax]
  simp only [List.take_succ_cons, List.take_zero, List.drop_succ_cons,
    List.drop_zero, crc32_cons, List.cons_append]
  rfl

theorem check_crc_fw_ok (c : Nat) (rest : List Nat) (hc : c < 4294967296) :
    check_crc_fw c (u32le c ++ rest) = { ret := 0, rest := rest } := by
  unfold check_crc_fw
  have hl : (u32le c ++ rest).length = 4 + rest.length := by
    simp [List.length_append, u32le_length]
  rw [if_neg (by omega : ¬ (u32le c ++ rest).length < 4)]
  rw [List.take_left' (u32le_length c), le32_u32le c hc,
    List.drop_left' (u32le_length c)]
  simp

/-- The device write inner loop over a well-formed stream: reading `toRead`
(at most 255) bytes succeeds, stores exactly those bytes, acknowledges the
(at most one) checkpoint crossed, and leaves the stream positioned at the
rest of the framing. -/
theorem pwInner_frames (toRead : Nat) : ∀ (b : List Nat) (crc crcNext : Nat),
    toRead ≤ b.length → toRead ≤ 255 → 1 ≤ crcNext → crcNext ≤ 256 →
    pwInner (writeFrames b crc crcNext) toRead crc crcNext =
      { ok := true, failRc := 0,
        rest := writeFrames (b.drop toRead) (crc32 crc (b.take toRead))
          (if crcNext ≤ toRead then 256 - (toRead - crcNext)
           else crcNext - toRead),
        crc := crc32 crc (b.take toRead),
        crcNext := if crcNext ≤ toRead then 256 - (toRead - crcNext)
          else crcNext - toRead,
        acks := if crcNext ≤ toRead then [RC_SUCCESS] else [],
        got := b.take toRead } := by
  induction toRead with
  | zero =>
    intro b crc crcNext hlen h255 hc1 hc2
    rw [pwInner]
    simp only [if_neg (by omega : ¬ crcNext ≤ 0), Nat.sub_zero,
      List.drop_zero, List.take_zero]
    rfl
  | succ n ih =>
    intro b crc crcNext hlen h255 hc1 hc2
    match b with
    | [] => simp at hlen
    | x :: xs =>
      simp only [List.length_cons] at hlen
      by_cases hcp : crcNext = 1
      · subst hcp
        rw [writeFrames_cons_checkpoint]
        rw [pwInner]
        simp only [if_pos rfl]
        rw [check_crc_fw_ok _ _ (crc32_step_lt crc x)]
        simp only [ne_eq, not_true_eq_false, if_false, reduceIte,
          DATA_CRC_INTERVAL]
        rw [ih xs (crc32_step crc x) 256 (by omega) (by omega) (by omega)
          (by omega)]
        simp only [if_neg (by omega : ¬ (256 : Nat) ≤ n)]
        simp only [if_pos (by omega : (1 : Nat) ≤ n + 1)]
        simp only [List.take_succ_cons, List.drop_succ_cons, crc32_cons]
        have harith : 256 - n = 256 - (n + 1 - 1) := by omega
        rw [harith]
      · rw [writeFrames_cons_step x xs crc crcNext (by omega) hc2]
        rw [pwInner]
        simp only [if_neg hcp]
        rw [ih xs (crc32_step crc x) (crcNext - 1) (by omega) (by omega)
          (by omega) (by omega)]
        simp only [List.take_succ_cons, List.drop_succ_cons, crc32_cons]
        by_cases hle : crcNext ≤ n + 1
        · simp only [if_pos (by omega : crcNext - 1 ≤ n), if_pos hle]
          have harith : 256 - (n - (crcNext - 1)) =
              256 - (n + 1 - crcNext) := by omega
          rw [harith]
        · simp only [if_neg (by omega : ¬ crcNext - 1 ≤ n), if_neg hle]
          have harith : crcNext - 1 - n = crcNext - (n + 1) := by omega
          rw [harith]

theorem replicate_succ_zero (m : Nat) :
    (0 : Nat) :: List.replicate m 0 = List.replicate (1 + m) 0 := by
  rw [Nat.add_comm, List.replicate_succ]

theorem numCrcsFrom_zero_256 : numCrcsFrom 0 256 = 0 := rfl

theorem numCrcsFrom_zero_short (cn : Nat) (h1 : 1 ≤ cn) (h2 : cn ≤ 255) :
    numCrcsFrom 0 cn = 1 := by
  simp only [numCrcsFrom]
  omega

/-- The device write receiver consumes a complete well-formed framed
stream: it returns success, commits exactly the 128-byte-aligned block
decomposition of the image, and acknowledges every checkpoint with a zero
status byte. -/
theorem promWriteGo_frames (n : Nat) : ∀ (b : List Nat) (addr crc crcNext : Nat),
    b.length ≤ n → crc < 4294967296 → 1 ≤ crcNext → crcNext ≤ 256 →
    promWriteGo addr b.length (writeFrames b crc crcNext) crc crcNext =
      { rc := RC_SUCCESS, writes := blockSplit addr b,
        acks := List.replicate (numCrcsFrom b.length crcNext) 0 } := by
  induction n with
  | zero =>
    intro b addr crc crcNext hb hcrc hc1 hc2
    have hb0 : b = [] := List.length_eq_zero.mp (Nat.le_zero.mp hb)
    subst hb0
    rw [promWriteGo.eq_def,
      dif_pos (show ([] : List Nat).length = 0 from rfl)]
    simp only [DATA_CRC_INTERVAL]
    by_cases hcn : crcNext = 256
    · subst hcn
      simp [blockSplit, numCrcsFrom_zero_256]
    · rw [writeFrames.eq_def]
      simp only [if_neg hcn]
      have hck : check_crc_fw crc (u32le crc) = { ret := 0, rest := [] } := by
        have := check_crc_fw_ok crc [] hcrc
        rwa [List.append_nil] at this
      rw [hck]
      simp [blockSplit, hcn, numCrcsFrom_zero_short crcNext hc1 (by omega),
        RC_SUCCESS]
  | succ k ih =>
    intro b addr crc crcNext hb hcrc hc1 hc2
    match b with
    | [] =>
      rw [promWriteGo.eq_def,
        dif_pos (show ([] : List Nat).length = 0 from rfl)]
      simp only [DATA_CRC_INTERVAL]
      by_cases hcn : crcNext = 256
      · subst hcn
        simp [blockSplit, numCrcsFrom_zero_256]
      · rw [writeFrames.eq_def]
        simp only [if_neg hcn]
        have hck : check_crc_fw crc (u32le crc) = { ret := 0, rest := [] } := by
          have := check_crc_fw_ok crc [] hcrc
          rwa [List.append_nil] at this
        rw [hck]
        simp [blockSplit, hcn, numCrcsFrom_zero_short crcNext hc1 (by omega),
          RC_SUCCESS]
    | x :: xs =>
      simp only [List.length_cons] at hb
      rw [promWriteGo.eq_def]
      simp only [List.length_cons, dif_neg (by omega : ¬ xs.length + 1 = 0)]
      have htb : min (xs.length + 1) (128 - addr % 128) ≤ xs.length + 1 :=
        Nat.min_le_left ..
      have ht255 : min (xs.length + 1) (128 - addr % 128) ≤ 255 := by
        have : 128 - addr % 128 ≤ 128 := by omega
        omega
      have ht1 : 1 ≤ min (xs.length + 1) (128 - addr % 128) := by
        have : addr % 128 < 128 := Nat.mod_lt _ (by norm_num)
        omega
    -- the inner loop fills exactly one block
      rw [pwInner_frames _ (x :: xs) crc crcNext
        (by simpa using htb) ht255 hc1 hc2]
      simp only
      have hdl : ((x :: xs).drop
          (min (xs.length + 1) (128 - addr % 128))).length =
          xs.length + 1 - min (xs.length + 1) (128 - addr % 128) := by
        simp [List.length_drop]
      have hrec := ih ((x :: xs).drop (min (xs.length + 1) (128 - addr % 128)))
        (addr + min (xs.length + 1) (128 - addr % 128))
        (crc32 crc ((x :: xs).take (min (xs.length + 1) (128 - addr % 128))))
        (if crcNext ≤ min (xs.length + 1) (128 - addr % 128) then
          256 - (min (xs.length + 1) (128 - addr % 128) - crcNext)
         else crcNext - min (xs.length + 1) (128 - addr % 128))
        (by rw [hdl]; omega)
        (by
          rcases (x :: xs).take (min (xs.length + 1) (128 - addr % 128)) with
            _ | ⟨y, ys⟩
          · exact hcrc
          · exact crc32_lt _ _ hcrc)
        (by split <;> omega)
        (by split <;> omega)
      rw [hdl] at hrec
      rw [hrec]
      simp only
      rw [blockSplit.eq_def _ (x :: xs)]
      have hacks : (if crcNext ≤ min (xs.length + 1) (128 - addr % 128) then
            [RC_SUCCESS] else []) ++
          List.replicate (numCrcsFrom
            (xs.length + 1 - min (xs.length + 1) (128 - addr % 128))
            (if crcNext ≤ min (xs.length + 1) (128 - addr % 128) then
              256 - (min (xs.length + 1) (128 - addr % 128) - crcNext)
             else crcNext - min (xs.length + 1) (128 - addr % 128))) 0 =
          List.replicate (numCrcsFrom (xs.length + 1) crcNext) 0 := by
        by_cases hcle : crcNext ≤ min (xs.length + 1) (128 - addr % 128)
        · simp only [if_pos hcle, RC_SUCCESS, List.singleton_append,
            replicate_succ_zero]
          congr 1
          simp only [numCrcsFrom]
          omega
        · simp only [if_neg hcle, List.nil_append]
          congr 1
          simp only [numCrcsFrom]
          omega
      rw [hacks]
      rfl

theorem writeFrames_256_cons (x : Nat) (xs : List Nat) (crc : Nat) :
    writeFrames (x :: xs) crc 256 =
      (x :: xs).take 256 ++ (u32le (crc32 crc ((x :: xs).take 256)) ++
        writeFrames ((x :: xs).drop 256) (crc32 crc ((x :: xs).take 256))
          256) := by
  rw [writeFrames.eq_def]
  by_cases h : xs.length + 1 < 256
  · simp only [List.length_cons, if_pos h]
    have htk : (x :: xs).take 256 = x :: xs :=
      List.take_of_length_le (by simp; omega)
    have hdp : (x :: xs).drop 256 = [] :=
      List.drop_eq_nil_of_le (by simp; omega)
    rw [htk, hdp, writeFrames.eq_def]
    simp
  · simp only [List.length_cons, if_neg h]
    have hmax : max 1 256 = 256 := rfl
    rw [hmax, List.append_assoc]

theorem sendGo_cons_step (x : Nat) (xs : List Nat) (crc cc : Nat)
    (acks : List Nat) (hcc : cc < 2) :
    sendLLCrcGo (x :: xs) crc cc acks =
      { out := (x :: xs).take (min 256 (xs.length + 1)) ++
          u32le (crc32 crc ((x :: xs).take (min 256 (xs.length + 1)))) ++
          (sendLLCrcGo ((x :: xs).drop (min 256 (xs.length + 1)))
            (crc32 crc ((x :: xs).take (min 256 (xs.length + 1))))
            (cc + 1) acks).out,
        crcs := crc32 crc ((x :: xs).take (min 256 (xs.length + 1))) ::
          (sendLLCrcGo ((x :: xs).drop (min 256 (xs.length + 1)))
            (crc32 crc ((x :: xs).take (min 256 (xs.length + 1))))
            (cc + 1) acks).crcs,
        caps := (cc + 1) ::
          (sendLLCrcGo ((x :: xs).drop (min 256 (xs.length + 1)))
            (crc32 crc ((x :: xs).take (min 256 (xs.length + 1))))
            (cc + 1) acks).caps,
        ret := (sendLLCrcGo ((x :: xs).drop (min 256 (xs.length + 1)))
            (crc32 crc ((x :: xs).take (min 256 (xs.length + 1))))
            (cc + 1) acks).ret } := by
  rw [sendLLCrcGo.eq_def]
  simp only [List.length_cons, if_neg (by omega : ¬ cc ≥ 2)]

theorem sendGo_cons_full (x : Nat) (xs : List Nat) (crc : Nat)
    (acks : List Nat) :
    sendLLCrcGo (x :: xs) crc 2 (0 :: acks) =
      sendLLCrcGo (x :: xs) crc 1 acks := by
  rw [sendLLCrcGo.eq_def, sendLLCrcGo.eq_def _ _ 1]
  simp

theorem sendGo_cons_stall (x : Nat) (xs : List Nat) (crc : Nat) :
    sendLLCrcGo (x :: xs) crc 2 [] =
      { out := (x :: xs).take (min 256 (xs.length + 1)), crcs := [],
        caps := [], ret := RC_FAILURE } := by
  rw [sendLLCrcGo.eq_def]
  simp

theorem sendGo_cons_badack (x : Nat) (xs : List Nat) (crc a : Nat)
    (r : List Nat) (ha : a ≠ 0) :
    sendLLCrcGo (x :: xs) crc 2 (a :: r) =
      { out := (x :: xs).take (min 256 (xs.length + 1)), crcs := [],
        caps := [], ret := RC_FAILURE } := by
  rw [sendLLCrcGo.eq_def]
  simp [ha]

/-- The producer count of in-flight checkpoints never exceeds 2 on the
write sender. -/
theorem sendLLCrcGo_caps (n : Nat) : ∀ (d : List Nat), d.length ≤ n →
    ∀ (crc cc : Nat) (acks : List Nat), cc ≤ 2 →
    ∀ v ∈ (sendLLCrcGo d crc cc acks).caps, v ≤ 2 := by
  induction n with
  | zero =>
    intro d hd crc cc acks hcc v hv
    have hd0 : d = [] := List.length_eq_zero.mp (Nat.le_zero.mp hd)
    subst hd0
    rw [sendLLCrcGo.eq_def] at hv
    rcases hdr : drainAcks cc acks with _ | rest <;> rw [hdr] at hv <;>
      exact absurd hv (List.not_mem_nil v)
  | succ k ih =>
    intro d hd crc cc acks hcc v hv
    match d with
    | [] =>
      rw [sendLLCrcGo.eq_def] at hv
      rcases hdr : drainAcks cc acks with _ | rest <;> rw [hdr] at hv <;>
        exact absurd hv (List.not_mem_nil v)
    | x :: xs =>
      simp only [List.length_cons] at hd
      have hdl : ((x :: xs).drop (min 256 (xs.length + 1))).length =
          xs.length + 1 - min 256 (xs.length + 1) := by
        simp [List.length_drop]
      rcases Nat.lt_or_ge cc 2 with hc | hc
      · rw [sendGo_cons_step x xs crc cc acks hc] at hv
        simp only [List.mem_cons] at hv
        rcases hv with rfl | hv
        · omega
        · exact ih _ (by omega) _ (cc + 1) acks (by omega) v hv
      · have hcc2 : cc = 2 := le_antisymm hcc hc
        subst hcc2
        match acks with
        | [] =>
          rw [sendGo_cons_stall] at hv
          exact absurd hv (List.not_mem_nil v)
        | a :: r =>
          by_cases ha : a = 0
          · subst ha
            rw [sendGo_cons_full] at hv
            rw [sendGo_cons_step x xs crc 1 r (by omega)] at hv
            simp only [List.mem_cons] at hv
            rcases hv with rfl | hv
            · omega
            · exact ih _ (by omega) _ 2 r (by omega) v hv
          · rw [sendGo_cons_badack x xs crc a r ha] at hv
            exact absurd hv (List.not_mem_nil v)

/-- One chunk of the fault-free write-sender run, window not at capacity. -/
theorem sendLLCrcGo_spec_core (k : Nat)
    (ih : ∀ (d : List Nat), d.length ≤ k →
      ∀ (crc cc m : Nat), cc ≤ 2 → cc + numChunks d.length ≤ m →
      (sendLLCrcGo d crc cc (List.replicate m 0)).out =
        writeFrames d crc 256 ∧
      (sendLLCrcGo d crc cc (List.replicate m 0)).ret = 0)
    (x : Nat) (xs : List Nat) (hb : xs.length + 1 ≤ k + 1)
    (crc cc m : Nat) (hcc : cc < 2)
    (hm : cc + numChunks (xs.length + 1) ≤ m) :
    (sendLLCrcGo (x :: xs) crc cc (List.replicate m 0)).out =
      writeFrames (x :: xs) crc 256 ∧
    (sendLLCrcGo (x :: xs) crc cc (List.replicate m 0)).ret = 0 := by
  rw [sendGo_cons_step x xs crc cc _ hcc]
  have hlenx : (x :: xs).length = xs.length + 1 := rfl
  have htk : (x :: xs).take (min 256 (xs.length + 1)) = (x :: xs).take 256 := by
    rw [← hlenx, take_min_length]
  have hdp : (x :: xs).drop (min 256 (xs.length + 1)) = (x :: xs).drop 256 := by
    rw [← hlenx, drop_min_length]
  have hdl : ((x :: xs).drop 256).length = xs.length + 1 - 256 := by
    simp [List.length_drop]
  have hnc : cc + 1 + numChunks ((x :: xs).drop 256).length ≤ m := by
    rw [hdl]
    by_cases h2 : 256 ≤ xs.length + 1
    · have := numChunks_step (xs.length + 1) h2
      omega
    · have hz : xs.length + 1 - 256 = 0 := by omega
      rw [hz, numChunks_zero]
      have := numChunks_pos (xs.length + 1) (by omega)
      omega
  have ihres := ih ((x :: xs).drop 256) (by omega)
    (crc32 crc ((x :: xs).take 256)) (cc + 1) m (by omega) hnc
  rw [htk, hdp, writeFrames_256_cons]
  exact ⟨by rw [ihres.1, List.append_assoc], ihres.2⟩

/-- Fault-free characterization of the write sender: it emits exactly the
status-less chunk framing of the write direction and returns 0. -/
theorem sendLLCrcGo_spec (n : Nat) : ∀ (d : List Nat), d.length ≤ n →
    ∀ (crc cc m : Nat), cc ≤ 2 → cc + numChunks d.length ≤ m →
    (sendLLCrcGo d crc cc (List.replicate m 0)).out =
      writeFrames d crc 256 ∧
    (sendLLCrcGo d crc cc (List.replicate m 0)).ret = 0 := by
  induction n with
  | zero =>
    intro d hd crc cc m hcc hm
    have hd0 : d = [] := List.length_eq_zero.mp (Nat.le_zero.mp hd)
    subst hd0
    simp only [List.length_nil, numChunks_zero] at hm
    rw [sendLLCrcGo.eq_def, writeFrames.eq_def]
    rw [drainAcks_replicate cc m (by omega)]
    simp
  | succ k ih =>
    intro d hd crc cc m hcc hm
    match d with
    | [] =>
      simp only [List.length_nil, numChunks_zero] at hm
      rw [sendLLCrcGo.eq_def, writeFrames.eq_def]
      rw [drainAcks_replicate cc m (by omega)]
      simp
    | x :: xs =>
      simp only [List.length_cons] at hd hm
      rcases Nat.lt_or_ge cc 2 with hc | hc
      · exact sendLLCrcGo_spec_core k ih x xs hd crc cc m hc hm
      · have hcc2 : cc = 2 := le_antisymm hcc hc
        subst hcc2
        have hch1 : 1 ≤ numChunks (xs.length + 1) :=
          numChunks_pos _ (by omega)
        obtain ⟨j, rfl⟩ : ∃ j, m = j + 1 := ⟨m - 1, by omega⟩
        rw [List.replicate_succ, sendGo_cons_full]
        exact sendLLCrcGo_spec_core k ih x xs hd crc 1 j (by omega) (by omega)

theorem getD_setD_ne (a : Array Nat) (i j v : Nat) (hne : i ≠ j) :
    (a.setD i v).getD j 0 = a.getD j 0 := by
  unfold Array.setD
  split
  · unfold Array.getD
    have hs : (a.set ⟨i, by assumption⟩ v).size = a.size := Array.size_set ..
    by_cases hj : j < a.size
    · rw [dif_pos (by omega), dif_pos hj]
      simp only [Array.get_eq_getElem]
      exact Array.getElem_set_ne a _ v (by omega) (by simpa using hne)
    · rw [dif_neg (by omega), dif_neg hj]
  · rfl

theorem getD_setD_eq (a : Array Nat) (i v : Nat) (hi : i < a.size) :
    (a.setD i v).getD i 0 = v := by
  unfold Array.setD Array.getD
  rw [dif_pos hi]
  have hs : (a.set ⟨i, hi⟩ v).size = a.size := Array.size_set ..
  rw [dif_pos (by omega)]
  simp only [Array.get_eq_getElem]
  exact Array.getElem_set_eq a ⟨i, hi⟩ v rfl (by omega)

/-- The well-formedness invariant every reachable ring-buffer state keeps:
the array never changes size and both cursors stay below it. -/
theorem rb_reachable_inv (cap : Nat) (hcap : 0 < cap) (rb : RingBuf)
    (h : RbReachable cap rb) :
    rb.data.size = cap ∧ rb.prod < cap ∧ rb.cons < cap := by
  induction h with
  | init => exact ⟨Array.size_mkArray .., hcap, hcap⟩
  | put rb ch _ ihp =>
    by_cases hfull : (rb.prod + 1) % rb.data.size = rb.cons
    · simpa only [rb_put, if_pos hfull] using ihp
    · refine ⟨?_, ?_, ?_⟩ <;> simp only [rb_put, if_neg hfull]
      · rw [Array.size_setD]
        exact ihp.1
      · rw [ihp.1]
        exact Nat.mod_lt _ hcap
      · exact ihp.2.2
  | get rb _ ihp =>
    by_cases hemp : rb.cons = rb.prod
    · simpa only [rb_get, if_pos hemp] using ihp
    · refine ⟨?_, ?_, ?_⟩ <;> simp only [rb_get, if_neg hemp]
      · exact ihp.1
      · exact ihp.2.1
      · rw [ihp.1]
        exact Nat.mod_lt _ hcap

theorem rbCount_spec (s p c : Nat) (hp : p < s) (hc : c < s) :
    (p + s - c) % s = if c ≤ p then p - c else p + s - c := by
  split
  · have he : p + s - c = (p - c) + s := by omega
    rw [he, Nat.add_mod_right, Nat.mod_eq_of_lt (by omega)]
  · exact Nat.mod_eq_of_lt (by omega)

theorem rbIndex_ne_prod (s p c i : Nat) (hp : p < s) (hc : c < s)
    (hi : i < (p + s - c) % s) : (c + i) % s ≠ p := by
  rw [rbCount_spec s p c hp hc] at hi
  by_cases hcp : c ≤ p
  · rw [if_pos hcp] at hi
    rw [Nat.mod_eq_of_lt (by omega)]
    omega
  · rw [if_neg hcp] at hi
    by_cases hlt : c + i < s
    · rw [Nat.mod_eq_of_lt hlt]
      omega
    · have hm : (c + i) % s = c + i - s := by
        rw [Nat.mod_eq_sub_mod (by omega), Nat.mod_eq_of_lt (by omega)]
      rw [hm]
      omega

theorem rbIndex_count_eq_prod (s p c : Nat) (hp : p < s) (hc : c < s) :
    (c + (p + s - c) % s) % s = p := by
  rw [rbCount_spec s p c hp hc]
  by_cases hcp : c ≤ p
  · rw [if_pos hcp]
    have he : c + (p - c) = p := by omega
    rw [he, Nat.mod_eq_of_lt hp]
  · rw [if_neg hcp]
    have he : c + (p + s - c) = p + s := by omega
    rw [he, Nat.add_mod_right, Nat.mod_eq_of_lt hp]

theorem rbCount_put (s p c : Nat) (hp : p < s) (hc : c < s)
    (hnf : (p + 1) % s ≠ c) :
    ((p + 1) % s + s - c) % s = (p + s - c) % s + 1 := by
  by_cases hps : p + 1 = s
  · have h1 : (p + 1) % s = 0 := by rw [hps, Nat.mod_self]
    rw [h1] at hnf ⊢
    rw [rbCount_spec s 0 c (by omega) hc, rbCount_spec s p c hp hc]
    split_ifs <;> omega
  · have h1 : (p + 1) % s = p + 1 := Nat.mod_eq_of_lt (by omega)
    rw [h1] at hnf ⊢
    rw [rbCount_spec s (p + 1) c (by omega) hc, rbCount_spec s p c hp hc]
    split_ifs <;> omega

theorem rbCount_get (s p c : Nat) (hp : p < s) (hc : c < s) (hne : c ≠ p) :
    (p + s - (c + 1) % s) % s + 1 = (p + s - c) % s := by
  by_cases hcs : c + 1 = s
  · have h1 : (c + 1) % s = 0 := by rw [hcs, Nat.mod_self]
    rw [h1, rbCount_spec s p 0 hp (by omega), rbCount_spec s p c hp hc]
    split_ifs <;> omega
  · have h1 : (c + 1) % s = c + 1 := Nat.mod_eq_of_lt (by omega)
    rw [h1, rbCount_spec s p (c + 1) hp (by omega), rbCount_spec s p c hp hc]
    split_ifs <;> omega

/-- `rx_rb_put` / `tx_rb_put` on a non-full ring: succeeds and appends the
byte at the producer end of the queue. -/
theorem rb_put_nonfull (cap : Nat) (rb : RingBuf) (ch : Nat)
    (hs : rb.data.size = cap) (hp : rb.prod < cap) (hc : rb.cons < cap)
    (hnf : (rb.prod + 1) % cap ≠ rb.cons) :
    (rb_put rb ch).1 = false ∧
    rbContents (rb_put rb ch).2 = rbContents rb ++ [ch % 256] := by
  constructor
  · simp [rb_put, hs, hnf]
  · simp only [rb_put, hs, if_neg hnf]
    unfold rbContents rbCount
    simp only [Array.size_setD, hs]
    rw [rbCount_put cap rb.prod rb.cons hp hc hnf]
    rw [List.range_succ, List.map_append]
    congr 1
    · refine List.map_eq_map_iff.mpr ?_
      intro i hi
      rw [List.mem_range] at hi
      exact getD_setD_ne _ _ _ _
        (fun he => rbIndex_ne_prod cap rb.prod rb.cons i hp hc hi he.symm)
    · simp only [List.map_cons, List.map_nil]
      rw [rbIndex_count_eq_prod cap rb.prod rb.cons hp hc]
      rw [getD_setD_eq _ _ _ (by omega)]

/-- `rx_rb_get` / `cons_rb_get` on a non-empty ring: returns the oldest
queued byte and dequeues it. -/
theorem rb_get_nonempty (cap : Nat) (rb : RingBuf)
    (hs : rb.data.size = cap) (hp : rb.prod < cap) (hc : rb.cons < cap)
    (hne : rb.cons ≠ rb.prod) :
    (rb_get rb).1 = (rb.data.getD rb.cons 0 : Int) ∧
    rbContents rb = rb.data.getD rb.cons 0 :: rbContents (rb_get rb).2 := by
  constructor
  · simp [rb_get, hne]
  · simp only [rb_get, if_neg hne]
    unfold rbContents rbCount
    simp only [hs]
    rw [← rbCount_get cap rb.prod rb.cons hp hc hne]
    rw [List.range_succ_eq_map, List.map_cons, List.map_map]
    congr 1
    · rw [Nat.add_zero, Nat.mod_eq_of_lt hc]
    · refine List.map_eq_map_iff.mpr ?_
      intro i hi
      simp only [Function.comp_apply]
      rw [Nat.mod_add_mod]
      have he : rb.cons + 1 + i = rb.cons + Nat.succ i := by omega
      rw [he]

theorem promWriteGo_succ (addr len : Nat) (input : List Nat) (crc cn : Nat)
    (hlen : len ≠ 0) :
    promWriteGo addr len input crc cn =
      if (pwInner input (min len (128 - addr % 128)) crc cn).ok then
        { rc := (promWriteGo (addr + min len (128 - addr % 128))
            (len - min len (128 - addr % 128))
            (pwInner input (min len (128 - addr % 128)) crc cn).rest
            (pwInner input (min len (128 - addr % 128)) crc cn).crc
            (pwInner input (min len (128 - addr % 128)) crc cn).crcNext).rc,
          writes := (addr, (pwInner input (min len (128 - addr % 128))
              crc cn).got) ::
            (promWriteGo (addr + min len (128 - addr % 128))
              (len - min len (128 - addr % 128))
              (pwInner input (min len (128 - addr % 128)) crc cn).rest
              (pwInner input (min len (128 - addr % 128)) crc cn).crc
              (pwInner input (min len (128 - addr % 128)) crc cn).crcNext).writes,
          acks := (pwInner input (min len (128 - addr % 128)) crc cn).acks ++
            (promWriteGo (addr + min len (128 - addr % 128))
              (len - min len (128 - addr % 128))
              (pwInner input (min len (128 - addr % 128)) crc cn).rest
              (pwInner input (min len (128 - addr % 128)) crc cn).crc
              (pwInner input (min len (128 - addr % 128)) crc cn).crcNext).acks }
      else
        { rc := (pwInner input (min len (128 - addr % 128)) crc cn).failRc,
          writes := [],
          acks := (pwInner input (min len (128 - addr % 128)) crc cn).acks ++
            [(pwInner input (min len (128 - addr % 128)) crc cn).failRc] } := by
  rw [promWriteGo.eq_def, dif_neg hlen]

theorem pwInner_got_le (toRead : Nat) : ∀ (input : List Nat) (crc cn : Nat),
    (pwInner input toRead crc cn).got.length ≤ toRead := by
  induction toRead with
  | zero => intro input crc cn; simp [pwInner]
  | succ n ih =>
    intro input crc cn
    match input with
    | [] => simp [pwInner]
    | ch :: rest =>
      rw [pwInner]
      by_cases hcp : cn = 1
      · rw [if_pos hcp]
        by_cases hchk : (check_crc_fw (crc32_step crc ch) rest).ret ≠ 0
        · simp only [if_pos hchk, List.length_cons, List.length_nil]
          omega
        · simp only [if_neg hchk, List.length_cons]
          have := ih (check_crc_fw (crc32_step crc ch) rest).rest
            (crc32_step crc ch) DATA_CRC_INTERVAL
          omega
      · simp only [if_neg hcp, List.length_cons]
        have := ih rest (crc32_step crc ch) (cn - 1)
        omega

theorem promWriteGo_zero_writes (addr : Nat) (input : List Nat)
    (crc cn : Nat) : (promWriteGo addr 0 input crc cn).writes = [] := by
  rw [promWriteGo.eq_def]
  simp only [reduceDIte]
  split
  · split <;> rfl
  · rfl

/-- Every EEPROM commit of the write receiver covers at most 128 bytes and
never crosses a 128-byte block boundary of the address space. -/
theorem promWriteGo_writes (n : Nat) : ∀ (len addr : Nat) (input : List Nat)
    (crc cn : Nat), len ≤ n →
    ∀ p ∈ (promWriteGo addr len input crc cn).writes,
      p.2.length ≤ 128 ∧ p.1 % 128 + p.2.length ≤ 128 := by
  induction n with
  | zero =>
    intro len addr input crc cn hlen p hp
    have h0 : len = 0 := by omega
    subst h0
    rw [promWriteGo_zero_writes] at hp
    exact absurd hp (List.not_mem_nil p)
  | succ k ih =>
    intro len addr input crc cn hlen p hp
    by_cases h0 : len = 0
    · subst h0
      rw [promWriteGo_zero_writes] at hp
      exact absurd hp (List.not_mem_nil p)
    · rw [promWriteGo_succ addr len input crc cn h0] at hp
      have hmod : addr % 128 < 128 := Nat.mod_lt _ (by norm_num)
      have ht1 : 1 ≤ min len (128 - addr % 128) := by omega
      split at hp
      · simp only [List.mem_cons] at hp
        rcases hp with rfl | hp
        · have hg := pwInner_got_le (min len (128 - addr % 128)) input crc cn
          constructor
          · simp only
            omega
          · simp only
            omega
        · exact ih (len - min len (128 - addr % 128)) _ _ _ _ (by omega) p hp
      · exact absurd hp (List.not_mem_nil p)

/-- Reading `pre.length` bytes that contain no checkpoint boundary simply
accumulates them: splitting lemma for `pwInner`. -/
theorem pwInner_skip (pre : List Nat) : ∀ (post : List Nat)
    (toRead crc cn : Nat), pre.length ≤ toRead → pre.length < cn →
    pwInner (pre ++ post) toRead crc cn =
      { ok := (pwInner post (toRead - pre.length) (crc32 crc pre)
          (cn - pre.length)).ok,
        failRc := (pwInner post (toRead - pre.length) (crc32 crc pre)
          (cn - pre.length)).failRc,
        rest := (pwInner post (toRead - pre.length) (crc32 crc pre)
          (cn - pre.length)).rest,
        crc := (pwInner post (toRead - pre.length) (crc32 crc pre)
          (cn - pre.length)).crc,
        crcNext := (pwInner post (toRead - pre.length) (crc32 crc pre)
          (cn - pre.length)).crcNext,
        acks := (pwInner post (toRead - pre.length) (crc32 crc pre)
          (cn - pre.length)).acks,
        got := pre ++ (pwInner post (toRead - pre.length) (crc32 crc pre)
          (cn - pre.length)).got } := by
  induction pre with
  | nil =>
    intro post toRead crc cn _ _
    simp [crc32]
  | cons x pre ih =>
    intro post toRead crc cn hk hcn
    simp only [List.length_cons] at hk hcn
    obtain ⟨t, rfl⟩ : ∃ t, toRead = t + 1 := ⟨toRead - 1, by omega⟩
    simp only [List.cons_append]
    rw [pwInner]
    rw [if_neg (by omega : ¬ cn = 1)]
    rw [ih post t (crc32_step crc x) (cn - 1) (by omega) (by omega)]
    simp only [crc32_cons, List.cons_append]
    have h1 : cn - 1 - pre.length = cn - (pre.length + 1) := by omega
    have h2 : t - pre.length = t + 1 - (pre.length + 1) := by omega
    rw [h1, h2]
    simp only [List.length_cons]

theorem check_crc_fw_mismatch (c w : Nat) (rest : List Nat)
    (hw : w < 4294967296) (hne : c ≠ w) :
    check_crc_fw c (u32le w ++ rest) = { ret := 1, rest := rest } := by
  unfold check_crc_fw
  have hl : (u32le w ++ rest).length = 4 + rest.length := by
    simp [List.length_append, u32le_length]
  rw [if_neg (by omega : ¬ (u32le w ++ rest).length < 4)]
  rw [List.take_left' (u32le_length w), le32_u32le w hw,
    List.drop_left' (u32le_length w)]
  rw [if_pos hne]

/-- A 256-byte aligned write whose checkpoint CRC does not match: the first
128-byte block has already been committed when the checkpoint fails, the
transfer aborts with `RC_FAILURE`, and no further (or compensating) write
is issued — the committed block stays. -/
theorem prom_write_binary_commit (addr : Nat) (payload : List Nat) (w : Nat)
    (ha : addr % 128 = 0) (hp : payload.length = 256) (hw : w < 4294967296)
    (hne : crc32 0 payload ≠ w) :
    prom_write_binary addr 256 (payload ++ u32le w) =
      { rc := RC_FAILURE, writes := [(addr, payload.take 128)],
        acks := [RC_FAILURE] } := by
  obtain ⟨z, hz⟩ : ∃ z, payload.drop 255 = [z] := by
    apply List.length_eq_one.mp
    simp [List.length_drop, hp]
  have hd128 : (payload.drop 128).length = 128 := by
    simp [List.length_drop, hp]
  have hsplit1 : payload ++ u32le w =
      payload.take 128 ++ (payload.drop 128 ++ u32le w) := by
    rw [← List.append_assoc, List.take_append_drop]
  have hdd : (payload.drop 128).drop 127 = payload.drop 255 :=
    List.drop_drop ..
  have hsplit2 : payload.drop 128 ++ u32le w =
      (payload.drop 128).take 127 ++ ([z] ++ u32le w) := by
    rw [← List.append_assoc]
    rw [← hz, ← hdd, List.take_append_drop]
  have htl : (payload.take 128).length = 128 := by
    simp [List.length_take, hp]
  have ht127 : ((payload.drop 128).take 127).length = 127 := by
    simp [List.length_take, hd128]
  -- cumulative CRC of the whole 256 bytes, split along the reads
  have hcrc256 : crc32_step
      (crc32 (crc32 0 (payload.take 128)) ((payload.drop 128).take 127)) z =
      crc32 0 payload := by
    have hstep : crc32_step
        (crc32 (crc32 0 (payload.take 128)) ((payload.drop 128).take 127)) z =
        crc32 (crc32 (crc32 0 (payload.take 128))
          ((payload.drop 128).take 127)) [z] := rfl
    rw [hstep, crc32_append, crc32_append]
    have hjoin : (payload.drop 128).take 127 ++ [z] = payload.drop 128 := by
      rw [← hz, ← hdd, List.take_append_drop]
    rw [hjoin, List.take_append_drop]
  unfold prom_write_binary
  rw [promWriteGo_succ _ _ _ _ _ (by omega)]
  rw [ha]
  have hm1 : min 256 (128 - 0) = 128 := rfl
  rw [hm1]
  rw [hsplit1, pwInner_skip (payload.take 128) _ 128 0 DATA_CRC_INTERVAL
    (by omega) (by rw [htl]; simp [DATA_CRC_INTERVAL])]
  rw [htl]
  have hz128 : (128 : Nat) - 128 = 0 := rfl
  rw [hz128]
  rw [pwInner]
  simp only
  -- the first block committed, recursion on the second
  rw [promWriteGo_succ _ _ _ _ _ (by omega : (256 : Nat) - 128 ≠ 0)]
  have hmod2 : (addr + 128) % 128 = 0 := by omega
  rw [hmod2]
  have hm2 : min (256 - 128) (128 - 0) = 128 := rfl
  rw [hm2]
  rw [hsplit2, pwInner_skip ((payload.drop 128).take 127) _ 128
    (crc32 0 (payload.take 128)) (DATA_CRC_INTERVAL - 128)
    (by omega) (by rw [ht127]; simp [DATA_CRC_INTERVAL])]
  rw [ht127]
  simp only [List.singleton_append, DATA_CRC_INTERVAL]
  have ha1 : (128 : Nat) - 127 = 1 := rfl
  rw [ha1]
  rw [pwInner]
  simp only [if_pos rfl]
  rw [hcrc256]
  have hmm : check_crc_fw (crc32 0 payload) (u32le w) =
      { ret := 1, rest := [] } := by
    have h := check_crc_fw_mismatch (crc32 0 payload) w [] hw hne
    rwa [List.append_nil] at h
  rw [hmm]
  simp [RC_FAILURE]

theorem readFrames_ne (b : List Nat) (crc : Nat) (hb : b ≠ []) :
    readFrames b crc =
      0 :: (b.take 256 ++ (u32le (crc32 crc (b.take 256)) ++
        readFrames (b.drop 256) (crc32 crc (b.take 256)))) := by
  match b, hb with
  | x :: xs, _ =>
    rw [readFrames_cons]
    simp [List.append_assoc]

theorem frameCrcs_ne (b : List Nat) (crc : Nat) (hb : b ≠ []) :
    frameCrcs b crc =
      crc32 crc (b.take 256) ::
        frameCrcs (b.drop 256) (crc32 crc (b.take 256)) := by
  match b, hb with
  | x :: xs, _ => rw [frameCrcs_cons]

/-- The last CRC of the chunk chain is the CRC of the whole image: the
cumulative-seed chaining makes the final checkpoint's CRC equal to a
single CRC computation over everything sent. -/
theorem frameCrcs_getLast (n : Nat) : ∀ (b : List Nat), b.length ≤ n →
    b ≠ [] → ∀ (seed : Nat),
    (frameCrcs b seed).getLast? = some (crc32 seed b) := by
  induction n with
  | zero =>
    intro b hb hne seed
    exact absurd (List.length_eq_zero.mp (Nat.le_zero.mp hb)) hne
  | succ k ih =>
    intro b hb hne seed
    rw [frameCrcs_ne b seed hne]
    by_cases hz : b.drop 256 = []
    · rw [hz, frameCrcs.eq_def]
      have htk : b.take 256 = b := by
        have := List.drop_eq_nil_iff_le.mp hz
        exact List.take_of_length_le this
      rw [htk]
      rfl
    · have hlen : 256 < b.length := by
        by_contra hcon
        exact hz (List.drop_eq_nil_of_le (by omega))
      have hdl : (b.drop 256).length = b.length - 256 := by
        simp [List.length_drop]
      rw [frameCrcs_ne (b.drop 256) _ hz, List.getLast?_cons_cons,
        ← frameCrcs_ne (b.drop 256) _ hz]
      rw [ih (b.drop 256) (by omega) hz (crc32 seed (b.take 256))]
      rw [crc32_append, List.take_append_drop]

theorem getD_take (l : List Nat) (i n : Nat) (h : i < n) :
    (l.take n).getD i 0 = l.getD i 0 := by
  simp only [List.getD, List.get?_take h]

/-- `check_crc_sw` on the 0x20202020 sentinel followed by a recognizable
remote failure message: the receiver reads the diagnostic text and reports
the remote failure without sending a CRC-mismatch status byte. -/
theorem check_crc_sw_sentinel (crc : Nat) (msg junk : List Nat)
    (hcrc : crc ≠ 0x20202020) (hlen : 2 < msg.length)
    (h0 : msg.getD 0 0 = 32) (h1 : msg.getD 1 0 = 32) :
    check_crc_sw crc (u32le 0x20202020 ++ msg) junk =
      { ret := 1, rest := msg.drop 64, acks := [], remoteMsg := true } := by
  have hc4 : le32 ((u32le 0x20202020 ++ msg).take 4 ++ junk) = 0x20202020 := by
    rw [List.take_left' (u32le_length _),
      le32_of_length_four _ _ (u32le_length _), le32_u32le _ (by norm_num)]
  have hd4 : (u32le 0x20202020 ++ msg).drop 4 = msg :=
    List.drop_left' (u32le_length _)
  obtain ⟨h, t, hu⟩ : ∃ h t, u32le 0x20202020 ++ msg = h :: t := by
    cases hx : u32le 0x20202020 ++ msg with
    | nil =>
      have hl : (u32le 0x20202020 ++ msg).length = 0 := by rw [hx]; rfl
      simp [List.length_append, u32le_length] at hl
    | cons a b => exact ⟨a, b, rfl⟩
  rw [hu] at hc4 hd4 ⊢
  have hrep : report_remote_failure_message msg =
      (true, msg.drop 64) := by
    unfold report_remote_failure_message
    have hg0 : (msg.take 64).getD 0 0 = 32 := by
      rw [getD_take _ _ _ (by omega), h0]
    have hg1 : (msg.take 64).getD 1 0 = 32 := by
      rw [getD_take _ _ _ (by omega), h1]
    have hgt : 2 < (msg.take 64).length := by
      rw [List.length_take]
      omega
    simp [hg0, hg1, hgt]
    refine ⟨⟨hlen, ?_⟩, ?_⟩
    · simpa [List.getD] using h0
    · simpa [List.getD] using h1
  simp only [check_crc_sw, hc4, hd4, hrep]
  have hne2 : (538976288 : Nat) ≠ crc := fun he => hcrc he.symm
  simp [hne2]

/-- Feeding a byte list into the device console ring through
`cons_rb_put`, collecting the UART markers. -/
def consFeed (rb : RingBuf) (l : List Nat) : RingBuf × List Nat :=
  match l with
  | [] => (rb, [])
  | ch :: rest =>
    ((consFeed (cons_rb_put rb ch).1 rest).1,
      (cons_rb_put rb ch).2 ++ (consFeed (cons_rb_put rb ch).1 rest).2)

theorem cons_rb_put_full (rb : RingBuf) (ch : Nat)
    (hfull : (rb.prod + 1) % rb.data.size = rb.cons) :
    cons_rb_put rb ch = (rb, [37]) := by
  simp [cons_rb_put, hfull]

theorem consFeed_full (rb : RingBuf)
    (hfull : (rb.prod + 1) % rb.data.size = rb.cons) : ∀ (l : List Nat),
    consFeed rb l = (rb, List.replicate l.length 37) := by
  intro l
  induction l with
  | nil => rfl
  | cons ch rest ih =>
    simp only [consFeed, cons_rb_put_full rb ch hfull, ih,
      List.length_cons, List.replicate_succ, List.singleton_append]

theorem numCrcsFrom_256 (n : Nat) : numCrcsFrom n 256 = numChunks n := by
  simp only [numCrcsFrom, numChunks]
  omega

/-! ## The claims -/

/-- C1: Round-trip identity of the read-direction transport. For every
byte sequence `b`, running the device-side sender `prom_read_binary`
(with a backend returning `b`) against the host-side receiver
`receive_ll_crc` over a fault-free channel (every acknowledgment
delivered, value 0) leaves exactly `b` in the receiver's buffer and the
receiver returns `length b`; the sender reports success. -/
theorem C1_read_round_trip (b : List Nat) (m : Nat) (junk : List Nat)
    (hm : numChunks b.length ≤ m) :
    (prom_read_binary b (List.replicate m 0)).rc = RC_SUCCESS ∧
    receive_ll_crc (prom_read_binary b (List.replicate m 0)).out
      b.length junk =
      { ret := (b.length : Int), buf := b,
        acks := List.replicate (numChunks b.length) 0 } := by
  have hs := promReadGo_spec b.length b le_rfl 0 0 m (by omega) (by omega)
  refine ⟨hs.2.2, ?_⟩
  unfold prom_read_binary receive_ll_crc
  unfold prom_read_binary at hs
  rw [hs.1]
  exact rx_frames_exact b.length b le_rfl 0 0 b.length junk (by norm_num)
    (by omega)

theorem C1_read_round_trip_witness :
    (prom_read_binary [1, 2, 3] (List.replicate 1 0)).rc = RC_SUCCESS ∧
    receive_ll_crc (prom_read_binary [1, 2, 3] (List.replicate 1 0)).out
      ([1, 2, 3] : List Nat).length [] =
      { ret := (([1, 2, 3] : List Nat).length : Int), buf := [1, 2, 3],
        acks := List.replicate (numChunks ([1, 2, 3] : List Nat).length) 0 } :=
  C1_read_round_trip [1, 2, 3] 1 [] (by decide)

/-- C2 counterexample: the claim states that in *both* directions each
chunk begins with a 1-byte status code before the payload. In the
host-to-device write direction this is false: for the 1-byte payload
[170] the wire chunk emitted by `send_ll_crc` is the payload byte
directly followed by the 4 CRC bytes — 5 bytes whose first byte is the
payload value 170, not a status code. -/
theorem C2_counterexample :
    (send_ll_crc [170] [0]).out = [170] ++ u32le (crc32 0 [170]) ∧
    (send_ll_crc [170] [0]).out.head? = some 170 ∧
    (send_ll_crc [170] [0]).out.length = 5 ∧ (170 : Nat) ≠ RC_SUCCESS := by
  have h := sendLLCrcGo_spec 1 [170] (by simp) 0 0 1 (by omega) (by decide)
  have h1 : (send_ll_crc [170] [0]).out = writeFrames [170] 0 256 := by
    unfold send_ll_crc
    rw [show ([0] : List Nat) = List.replicate 1 0 from rfl]
    exact h.1
  have h2 : writeFrames [170] 0 256 = [170] ++ u32le (crc32 0 [170]) := by
    rw [writeFrames.eq_def]
    norm_num
  refine ⟨h1.trans h2, ?_, ?_, by decide⟩
  · rw [h1.trans h2]
    rfl
  · rw [h1.trans h2]
    simp [u32le]

/-- C2 (amended): per-chunk wire framing. In the device-to-host read
direction each chunk is [1-byte status][payload][4-byte cumulative CRC]
and the host receiver consumes exactly that framing, answering each chunk
with one acknowledgment byte. In the host-to-device write direction each
chunk is [payload][4-byte cumulative CRC] with *no* status byte, and the
device receiver consumes exactly that framing, answering each checkpoint
with one status byte. -/
theorem C2_framing :
    (∀ (b : List Nat) (m : Nat), numChunks b.length ≤ m →
      (prom_read_binary b (List.replicate m 0)).out = readFrames b 0) ∧
    (∀ (b : List Nat) (junk : List Nat),
      receive_ll_crc (readFrames b 0) b.length junk =
        { ret := (b.length : Int), buf := b,
          acks := List.replicate (numChunks b.length) 0 }) ∧
    (∀ (d : List Nat) (m : Nat), numChunks d.length ≤ m →
      (send_ll_crc d (List.replicate m 0)).out = writeFrames d 0 256) ∧
    (∀ (d : List Nat) (addr : Nat),
      prom_write_binary addr d.length (writeFrames d 0 256) =
        { rc := RC_SUCCESS, writes := blockSplit addr d,
          acks := List.replicate (numChunks d.length) 0 }) := by
  refine ⟨?_, ?_, ?_, ?_⟩
  · intro b m hm
    exact (promReadGo_spec b.length b le_rfl 0 0 m (by omega) (by omega)).1
  · intro b junk
    exact rx_frames_exact b.length b le_rfl 0 0 b.length junk (by norm_num)
      (by omega)
  · intro d m hm
    exact (sendLLCrcGo_spec d.length d le_rfl 0 0 m (by omega) (by omega)).1
  · intro d addr
    have h := promWriteGo_frames d.length d addr 0 256 le_rfl (by norm_num)
      (by norm_num) (by norm_num)
    rw [numCrcsFrom_256] at h
    exact h

theorem C2_framing_witness :
    (prom_read_binary [5] (List.replicate 1 0)).out = readFrames [5] 0 ∧
    (send_ll_crc [5] (List.replicate 1 0)).out = writeFrames [5] 0 256 :=
  ⟨C2_framing.1 [5] 1 (by decide), C2_framing.2.2.1 [5] 1 (by decide)⟩

/-- C3: the CRC engine. (1) The per-byte update rule is
`crc = (crc << 8) ^ crc32_table[(crc >> 24) ^ b]` in 32-bit arithmetic;
(2) the engine is an append homomorphism —
`crc32(crc32(seed, a), b) = crc32(seed, a ++ b)`; (3) with seed 0 and each
chunk CRC feeding the next chunk as seed, the CRC sent with the final
chunk of a read transfer equals `crc32(0, whole image)`. -/
theorem C3_crc_engine :
    (∀ (c b : Nat) (l : List Nat), crc32 c (b :: l) =
      crc32 (((c <<< 8) ^^^
        crc32_table.getD ((c >>> 24) ^^^ b) 0) % 4294967296) l) ∧
    (∀ (seed : Nat) (a b : List Nat),
      crc32 (crc32 seed a) b = crc32 seed (a ++ b)) ∧
    (∀ (b : List Nat) (m : Nat), b ≠ [] → numChunks b.length ≤ m →
      (prom_read_binary b (List.replicate m 0)).crcs.getLast? =
        some (crc32 0 b)) := by
  refine ⟨fun c b l => rfl, crc32_append, fun b m hne hm => ?_⟩
  have hs := promReadGo_spec b.length b le_rfl 0 0 m (by omega) (by omega)
  unfold prom_read_binary
  rw [hs.2.1]
  exact frameCrcs_getLast b.length b le_rfl hne 0

theorem C3_crc_engine_witness :
    (prom_read_binary [5] (List.replicate 1 0)).crcs.getLast? =
      some (crc32 0 [5]) :=
  C3_crc_engine.2.2 [5] 1 (by decide) (by decide)

/-- C4: window bound invariant. The read sender's count of
unacknowledged checkpoints never exceeds 4 and the write sender's never
exceeds 2 (recorded values of `cap_count` after each checkpoint); when the
window is at capacity and the next acknowledgment never arrives, the
sender stops with `RC_FAILURE` instead of proceeding. -/
theorem C4_window_bound :
    (∀ (b : List Nat) (crc cc : Nat) (acks : List Nat), cc ≤ 4 →
      ∀ v ∈ (promReadGo b crc cc acks).caps, v ≤ 4) ∧
    (∀ (d : List Nat) (crc cc : Nat) (acks : List Nat), cc ≤ 2 →
      ∀ v ∈ (sendLLCrcGo d crc cc acks).caps, v ≤ 2) ∧
    (∀ (x : Nat) (xs : List Nat) (crc : Nat),
      (promReadGo (x :: xs) crc 4 []).rc = RC_FAILURE) ∧
    (∀ (x : Nat) (xs : List Nat) (crc : Nat),
      (sendLLCrcGo (x :: xs) crc 2 []).ret = RC_FAILURE) := by
  refine ⟨?_, ?_, ?_, ?_⟩
  · intro b crc cc acks hcc
    exact promReadGo_caps b.length b le_rfl crc cc acks hcc
  · intro d crc cc acks hcc
    exact sendLLCrcGo_caps d.length d le_rfl crc cc acks hcc
  · intro x xs crc
    rw [promReadGo_cons_stall]
  · intro x xs crc
    rw [sendGo_cons_stall]

theorem C4_window_bound_witness :
    (promReadGo [9] 0 4 []).rc = RC_FAILURE ∧
    (sendLLCrcGo [9] 0 2 []).ret = RC_FAILURE ∧
    (∀ v ∈ (promReadGo [9] 0 0 [0]).caps, v ≤ 4) :=
  ⟨C4_window_bound.2.2.1 9 [] 0, C4_window_bound.2.2.2 9 [] 0,
    C4_window_bound.1 [9] 0 0 [0] (by decide)⟩

/-- C5: ring buffer semantics. For every reachable state of the byte
ring: empty iff producer = consumer; full (queue holds capacity - 1
bytes, one slot always unused) iff advancing the producer by one equals
the consumer; `put` on a full ring fails leaving everything unchanged;
`get` on an empty ring returns the -1 sentinel and changes nothing;
otherwise `put` appends the byte and `get` dequeues the oldest byte in
FIFO order. -/
theorem C5_ring_buffer (cap : Nat) (hcap : 1 < cap) (rb : RingBuf)
    (hr : RbReachable cap rb) (ch : Nat) :
    (rbContents rb = [] ↔ rb.prod = rb.cons) ∧
    ((rbContents rb).length = cap - 1 ↔ (rb.prod + 1) % cap = rb.cons) ∧
    ((rb.prod + 1) % cap = rb.cons → rb_put rb ch = (true, rb)) ∧
    (rb.prod = rb.cons → rb_get rb = (-1, rb)) ∧
    ((rb.prod + 1) % cap ≠ rb.cons → (rb_put rb ch).1 = false ∧
      rbContents (rb_put rb ch).2 = rbContents rb ++ [ch % 256]) ∧
    (rb.prod ≠ rb.cons → (rb_get rb).1 = (rb.data.getD rb.cons 0 : Int) ∧
      rbContents rb = rb.data.getD rb.cons 0 :: rbContents (rb_get rb).2)
    := by
  obtain ⟨hs, hp, hc⟩ := rb_reachable_inv cap (by omega) rb hr
  refine ⟨?_, ?_, ?_, ?_, ?_, ?_⟩
  · unfold rbContents rbCount
    rw [hs]
    constructor
    · intro h
      have hlen := congrArg List.length h
      simp only [List.length_map, List.length_range, List.length_nil] at hlen
      rw [rbCount_spec cap rb.prod rb.cons hp hc] at hlen
      split_ifs at hlen <;> omega
    · intro h
      rw [h]
      have he : (rb.cons + cap - rb.cons) % cap = 0 := by
        have h2 : rb.cons + cap - rb.cons = cap := by omega
        rw [h2, Nat.mod_self]
      rw [he]
      rfl
  · unfold rbContents rbCount
    rw [hs, List.length_map, List.length_range,
      rbCount_spec cap rb.prod rb.cons hp hc]
    have hm : (rb.prod + 1) % cap =
        if rb.prod + 1 = cap then 0 else rb.prod + 1 := by
      split
    -- the producer cursor wraps at the capacity
      · rw [(by assumption : rb.prod + 1 = cap), Nat.mod_self]
      · exact Nat.mod_eq_of_lt (by omega)
    rw [hm]
    split_ifs <;> omega
  · intro h
    have h2 : (rb.prod + 1) % rb.data.size = rb.cons := by rw [hs]; exact h
    simp [rb_put, h2]
  · intro h
    simp [rb_get, h]
  · intro h
    exact rb_put_nonfull cap rb ch hs hp hc h
  · intro h
    have h6 := rb_get_nonempty cap rb hs hp hc (fun he => h he.symm)
    exact ⟨h6.1, h6.2⟩

theorem C5_ring_buffer_witness :
    (rbContents ⟨Array.mkArray 2 0, 0, 0⟩ = [] ↔
      (⟨Array.mkArray 2 0, 0, 0⟩ : RingBuf).prod =
      (⟨Array.mkArray 2 0, 0, 0⟩ : RingBuf).cons) ∧
    ((rbContents ⟨Array.mkArray 2 0, 0, 0⟩).length = 2 - 1 ↔
      ((⟨Array.mkArray 2 0, 0, 0⟩ : RingBuf).prod + 1) % 2 =
      (⟨Array.mkArray 2 0, 0, 0⟩ : RingBuf).cons) ∧
    (((⟨Array.mkArray 2 0, 0, 0⟩ : RingBuf).prod + 1) % 2 =
      (⟨Array.mkArray 2 0, 0, 0⟩ : RingBuf).cons →
      rb_put ⟨Array.mkArray 2 0, 0, 0⟩ 300 =
        (true, ⟨Array.mkArray 2 0, 0, 0⟩)) ∧
    ((⟨Array.mkArray 2 0, 0, 0⟩ : RingBuf).prod =
      (⟨Array.mkArray 2 0, 0, 0⟩ : RingBuf).cons →
      rb_get ⟨Array.mkArray 2 0, 0, 0⟩ = (-1, ⟨Array.mkArray 2 0, 0, 0⟩)) ∧
    (((⟨Array.mkArray 2 0, 0, 0⟩ : RingBuf).prod + 1) % 2 ≠
      (⟨Array.mkArray 2 0, 0, 0⟩ : RingBuf).cons →
      (rb_put ⟨Array.mkArray 2 0, 0, 0⟩ 300).1 = false ∧
      rbContents (rb_put ⟨Array.mkArray 2 0, 0, 0⟩ 300).2 =
        rbContents ⟨Array.mkArray 2 0, 0, 0⟩ ++ [300 % 256]) ∧
    ((⟨Array.mkArray 2 0, 0, 0⟩ : RingBuf).prod ≠
      (⟨Array.mkArray 2 0, 0, 0⟩ : RingBuf).cons →
      (rb_get ⟨Array.mkArray 2 0, 0, 0⟩).1 =
        ((⟨Array.mkArray 2 0, 0, 0⟩ : RingBuf).data.getD 0 0 : Int) ∧
      rbContents ⟨Array.mkArray 2 0, 0, 0⟩ =
        (⟨Array.mkArray 2 0, 0, 0⟩ : RingBuf).data.getD 0 0 ::
          rbContents (rb_get ⟨Array.mkArray 2 0, 0, 0⟩).2) :=
  C5_ring_buffer 2 (by norm_num) ⟨Array.mkArray 2 0, 0, 0⟩
    RbReachable.init 300

/-- C6 counterexample: the claim says that when the link delivers exactly
k complete chunks and then nothing, the receiver reports exactly k·256
bytes completed. With k = 1 complete chunk of a 512-byte transfer and the
link then silent, `receive_ll_crc` returns the -1 timeout indication, not
256. -/
theorem C6_counterexample :
    receive_ll_crc (readFrames (List.replicate 256 170) 0) 512 [] =
      { ret := -1, buf := List.replicate 256 170, acks := [0] } ∧
    ((-1 : Int) ≠ ((256 : Nat) : Int)) := by
  constructor
  · unfold receive_ll_crc
    have hlen : (List.replicate 256 170).length = 256 :=
      List.length_replicate ..
    have h := rx_frames_cut (List.replicate 256 170).length
      (List.replicate 256 170) le_rfl 0 0 512 [] (by norm_num)
      ⟨1, by rw [hlen]⟩ (by rw [hlen]; norm_num)
    rw [hlen] at h
    norm_num at h
    exact h
  · decide

/-- C6 (amended): if the link delivers exactly k complete chunks (each
with valid status, full 256-byte payload and matching CRC) and then no
further bytes, the receiver stores exactly k·256 bytes in its buffer and
sends exactly k zero acknowledgments, but its return value is the -1
timeout indication — not the byte count k·256 the claim stated. It never
reports more than k·256 bytes. -/
theorem C6_partial (k : Nat) (b : List Nat) (buflen : Nat) (junk : List Nat)
    (hb : b.length = 256 * k) (hlt : 256 * k < buflen) :
    receive_ll_crc (readFrames b 0) buflen junk =
      { ret := -1, buf := b, acks := List.replicate k 0 } := by
  unfold receive_ll_crc
  have h := rx_frames_cut b.length b le_rfl 0 0 buflen junk (by norm_num)
    ⟨k, hb⟩ (by omega)
  rw [h, hb]
  congr 2
  omega

theorem C6_partial_witness :
    receive_ll_crc (readFrames (List.replicate 256 170) 0) 300 [] =
      { ret := -1, buf := List.replicate 256 170,
        acks := List.replicate 1 0 } :=
  C6_partial 1 (List.replicate 256 170) 300 []
    (by rw [List.length_replicate]) (by norm_num)

/-- C7 counterexample: the claim says every chunk whose received CRC
field is 0x20202020 (while the locally computed CRC differs) makes the
receiver report the remote-diagnostic outcome, never a CRC mismatch. If
no recognizable diagnostic text follows the sentinel, `check_crc_sw`
takes the CRC-mismatch path instead: it sends the mismatch status byte 1
and reports no remote message. -/
theorem C7_counterexample :
    check_crc_sw 0 (u32le 0x20202020) [] =
      { ret := 1, rest := [], acks := [1], remoteMsg := false } := by
  decide

/-- C7 (amended): when a chunk's received CRC field is the 0x20202020
sentinel, the locally computed CRC differs, and a diagnostic line of more
than two bytes starting with two ASCII spaces follows, the receiver
switches to reading the diagnostic text and reports the remote failure
(no CRC-mismatch status byte is sent back). -/
theorem C7_sentinel (crc : Nat) (msg junk : List Nat)
    (hcrc : crc ≠ 0x20202020) (hlen : 2 < msg.length)
    (h0 : msg.getD 0 0 = 32) (h1 : msg.getD 1 0 = 32) :
    check_crc_sw crc (u32le 0x20202020 ++ msg) junk =
      { ret := 1, rest := msg.drop 64, acks := [], remoteMsg := true } :=
  check_crc_sw_sentinel crc msg junk hcrc hlen h0 h1

theorem C7_sentinel_witness :
    check_crc_sw 0 (u32le 0x20202020 ++ [32, 32, 65]) [] =
      { ret := 1, rest := ([32, 32, 65] : List Nat).drop 64, acks := [],
        remoteMsg := true } :=
  C7_sentinel 0 [32, 32, 65] [] (by decide) (by decide) (by decide)
    (by decide)

/-- C8: the concrete 1000-byte read scenario. A fault-free device-to-host
transfer of exactly 1000 bytes with checkpoint interval 256 produces
exactly 4 chunks with payload sizes 256, 256, 256, 232 in order, each
carrying the cumulative CRC (the final one equal to
`crc32 0 (whole 1000-byte image)`); the receiver stores the image, sends
exactly 4 acknowledgment bytes, all zero, and reports 1000 bytes. -/
theorem C8_thousand (b : List Nat) (junk : List Nat) (hb : b.length = 1000) :
    (prom_read_binary b (List.replicate 4 0)).rc = RC_SUCCESS ∧
    (prom_read_binary b (List.replicate 4 0)).out =
      0 :: (b.take 256 ++ (u32le (crc32 0 (b.take 256)) ++
      (0 :: ((b.drop 256).take 256 ++ (u32le (crc32 0 (b.take 512)) ++
      (0 :: ((b.drop 512).take 256 ++ (u32le (crc32 0 (b.take 768)) ++
      (0 :: (b.drop 768 ++ u32le (crc32 0 b))))))))))) ∧
    (b.take 256).length = 256 ∧ ((b.drop 256).take 256).length = 256 ∧
    ((b.drop 512).take 256).length = 256 ∧ (b.drop 768).length = 232 ∧
    (prom_read_binary b (List.replicate 4 0)).crcs.getLast? =
      some (crc32 0 b) ∧
    receive_ll_crc (prom_read_binary b (List.replicate 4 0)).out 1000 junk =
      { ret := (1000 : Int), buf := b, acks := [0, 0, 0, 0] } := by
  have hnc : numChunks b.length = 4 := by rw [hb]; rfl
  have hs := promReadGo_spec b.length b le_rfl 0 0 4 (by omega) (by omega)
  have l1 : (b.take 256).length = 256 := by simp [List.length_take, hb]
  have d256 : (b.drop 256).length = 744 := by simp [List.length_drop, hb]
  have d512 : (b.drop 512).length = 488 := by simp [List.length_drop, hb]
  have d768 : (b.drop 768).length = 232 := by simp [List.length_drop, hb]
  have l2 : ((b.drop 256).take 256).length = 256 := by
    simp [List.length_take, d256]
  have l3 : ((b.drop 512).take 256).length = 256 := by
    simp [List.length_take, d512]
  have dd1 : (b.drop 256).drop 256 = b.drop 512 := List.drop_drop ..
  have dd2 : (b.drop 512).drop 256 = b.drop 768 := List.drop_drop ..
  have dd3 : (b.drop 768).drop 256 = b.drop 1024 := List.drop_drop ..
  have hnil : b.drop 1024 = [] := List.drop_eq_nil_of_le (by omega)
  have ht4 : (b.drop 768).take 256 = b.drop 768 :=
    List.take_of_length_le (by omega)
  have hne1 : b ≠ [] := by
    intro h
    rw [h] at hb
    exact absurd hb (by norm_num)
  have hne2 : b.drop 256 ≠ [] := by
    intro h
    rw [h] at d256
    exact absurd d256 (by norm_num)
  have hne3 : b.drop 512 ≠ [] := by
    intro h
    rw [h] at d512
    exact absurd d512 (by norm_num)
  have hne4 : b.drop 768 ≠ [] := by
    intro h
    rw [h] at d768
    exact absurd d768 (by norm_num)
  have hc2 : crc32 (crc32 0 (b.take 256)) ((b.drop 256).take 256) =
      crc32 0 (b.take 512) := by
    rw [crc32_append]
    congr 1
    rw [← List.take_add]
  have hc3 : crc32 (crc32 0 (b.take 512)) ((b.drop 512).take 256) =
      crc32 0 (b.take 768) := by
    rw [crc32_append]
    congr 1
    rw [← List.take_add]
  have hc4 : crc32 (crc32 0 (b.take 768)) (b.drop 768) = crc32 0 b := by
    rw [crc32_append, List.take_append_drop]
  have hout : readFrames b 0 =
      0 :: (b.take 256 ++ (u32le (crc32 0 (b.take 256)) ++
      (0 :: ((b.drop 256).take 256 ++ (u32le (crc32 0 (b.take 512)) ++
      (0 :: ((b.drop 512).take 256 ++ (u32le (crc32 0 (b.take 768)) ++
      (0 :: (b.drop 768 ++ u32le (crc32 0 b))))))))))) := by
    rw [readFrames_ne b 0 hne1]
    rw [readFrames_ne _ _ hne2, hc2, dd1]
    rw [readFrames_ne _ _ hne3, hc3, dd2]
    rw [readFrames_ne _ _ hne4, ht4, hc4, dd3, hnil]
    rw [show readFrames [] (crc32 0 b) = [] from by rw [readFrames.eq_def]]
    rw [List.append_nil]
  refine ⟨hs.2.2, ?_, l1, l2, l3, d768, ?_, ?_⟩
  · show (promReadGo b 0 0 (List.replicate 4 0)).out = _
    rw [hs.1, hout]
  · show (promReadGo b 0 0 (List.replicate 4 0)).crcs.getLast? = _
    rw [hs.2.1]
    exact frameCrcs_getLast b.length b le_rfl hne1 0
  · show receiveLLCrcGo (promReadGo b 0 0 (List.replicate 4 0)).out
      1000 0 0 junk = _
    rw [hs.1]
    have hrx := rx_frames_exact b.length b le_rfl 0 0 1000 junk
      (by norm_num) (by omega)
    rw [hrx, hnc]
    rfl

theorem C8_thousand_witness :
    (prom_read_binary (List.replicate 1000 3) (List.replicate 4 0)).rc =
      RC_SUCCESS ∧
    (prom_read_binary (List.replicate 1000 3) (List.replicate 4 0)).out =
      0 :: ((List.replicate 1000 3).take 256 ++
      (u32le (crc32 0 ((List.replicate 1000 3).take 256)) ++
      (0 :: (((List.replicate 1000 3).drop 256).take 256 ++
      (u32le (crc32 0 ((List.replicate 1000 3).take 512)) ++
      (0 :: (((List.replicate 1000 3).drop 512).take 256 ++
      (u32le (crc32 0 ((List.replicate 1000 3).take 768)) ++
      (0 :: ((List.replicate 1000 3).drop 768 ++
        u32le (crc32 0 (List.replicate 1000 3)))))))))))) ∧
    ((List.replicate 1000 3).take 256).length = 256 ∧
    (((List.replicate 1000 3).drop 256).take 256).length = 256 ∧
    (((List.replicate 1000 3).drop 512).take 256).length = 256 ∧
    ((List.replicate 1000 3).drop 768).length = 232 ∧
    (prom_read_binary (List.replicate 1000 3)
      (List.replicate 4 0)).crcs.getLast? =
      some (crc32 0 (List.replicate 1000 3)) ∧
    receive_ll_crc (prom_read_binary (List.replicate 1000 3)
      (List.replicate 4 0)).out 1000 [] =
      { ret := (1000 : Int), buf := List.replicate 1000 3,
        acks := [0, 0, 0, 0] } :=
  C8_thousand (List.replicate 1000 3) [] (by rw [List.length_replicate])

/-- C9: device-side write commit granularity. Every `prom_write` commit
issued by `prom_write_binary` covers at most 128 bytes and stays inside
the 128-byte block containing its start address; and received bytes are
committed as each block fills, before the 256-byte checkpoint CRC covering
them is verified — concretely, for an aligned 256-byte transfer whose
checkpoint CRC does not match, the first 128-byte block has already been
written when the transfer aborts with `RC_FAILURE`, and no rollback or
compensating write occurs (the failing run's write trace is exactly that
one block). -/
theorem C9_block_commit :
    (∀ (len addr : Nat) (input : List Nat) (crc cn : Nat),
      ∀ p ∈ (promWriteGo addr len input crc cn).writes,
        p.2.length ≤ 128 ∧ p.1 % 128 + p.2.length ≤ 128) ∧
    (∀ (addr : Nat) (payload : List Nat) (w : Nat), addr % 128 = 0 →
      payload.length = 256 → w < 4294967296 → crc32 0 payload ≠ w →
      prom_write_binary addr 256 (payload ++ u32le w) =
        { rc := RC_FAILURE, writes := [(addr, payload.take 128)],
          acks := [RC_FAILURE] }) :=
  ⟨fun len addr input crc cn =>
    promWriteGo_writes len len addr input crc cn le_rfl,
   prom_write_binary_commit⟩

set_option maxRecDepth 8000 in
theorem C9_block_commit_witness :
    prom_write_binary 0 256 (List.replicate 256 7 ++ u32le 0) =
      { rc := RC_FAILURE, writes := [(0, (List.replicate 256 7).take 128)],
        acks := [RC_FAILURE] } :=
  C9_block_commit.2 0 (List.replicate 256 7) 0 (by decide)
    (by rw [List.length_replicate]) (by decide) (by decide)

/-- C10: device console input overflow. When the console input ring is
full, the interrupt-context producer `cons_rb_put` discards the newly
arrived byte and emits a single percent character (0x25) on the UART; the
ring state (contents and both cursors) is unchanged. Under sustained
overflow every incoming byte is dropped the same way, so protocol bytes
are silently lost. `usb_rb_put` and `uart_rb_put` delegate to
`cons_rb_put` and only record the last input source. -/
theorem C10_console_overflow :
    (∀ (rb : RingBuf) (ch : Nat), (rb.prod + 1) % rb.data.size = rb.cons →
      cons_rb_put rb ch = (rb, [37])) ∧
    (∀ (rb : RingBuf) (l : List Nat),
      (rb.prod + 1) % rb.data.size = rb.cons →
      consFeed rb l = (rb, List.replicate l.length 37)) ∧
    (∀ (st : RingBuf × Nat) (ch : Nat),
      usb_rb_put st ch =
        (((cons_rb_put st.1 ch).1, SOURCE_USB), (cons_rb_put st.1 ch).2) ∧
      uart_rb_put st ch =
        (((cons_rb_put st.1 ch).1, SOURCE_UART), (cons_rb_put st.1 ch).2)) :=
  ⟨cons_rb_put_full, fun rb l h => consFeed_full rb h l,
    fun st ch => ⟨rfl, rfl⟩⟩

theorem C10_console_overflow_witness :
    cons_rb_put ⟨Array.mkArray 1024 0, 1023, 0⟩ 65 =
      (⟨Array.mkArray 1024 0, 1023, 0⟩, [37]) :=
  C10_console_overflow.1 ⟨Array.mkArray 1024 0, 1023, 0⟩ 65 (by simp)

end Mx
